import Mathlib

/-!
# Verification of the trpc-typia-openapi route-table and dispatch engine

This file gives a shallow embedding, in Lean 4, of the core of the
`trpc-typia-openapi` repository: the path-template compiler, the router
tree walkers, the request router / dispatcher (`src/handler.ts`), the
OpenAPI input-schema partitioning (`generator.ts` part of the bundle),
and the schema-carrier helpers (`src/procedure.ts`).

Modelling conventions:
* JavaScript runtime values are modelled by the inductive `Js`
  (no arrays: none of the verified code paths require them).
* JavaScript objects / `Map`s are association lists
  `List (String × v)`; assignment `o[k] = v` and `Map.set` are `objSet`
  (replace-in-place or append), object spread is `spreadMerge`.
* Fallible JavaScript code (anything that can `throw`) returns
  `Except ErrLike _`; `Except.error` is a thrown value escaping the
  modelled scope.
* `decodeURIComponent` is modelled by `decodeAux` below, following the
  ECMA-262 `Decode` algorithm (percent-escapes are parsed as bytes and
  UTF-8-decoded, anything malformed throws `URIError`).
-/

/-- A JavaScript runtime value, as needed by the handler code paths:
`undefined`, `null`, booleans, numbers, strings and plain objects. -/
inductive Js where
  | undef : Js
  | null : Js
  | bool (b : Bool) : Js
  | num (n : Int) : Js
  | str (s : String) : Js
  | obj (fields : List (String × Js)) : Js

/-- JavaScript truthiness of a value (`undefined`, `null`, `false`,
`0`, `""` are falsy, every object is truthy). -/
def Js.truthy : Js → Bool
  | .undef => false
  | .null => false
  | .bool b => b
  | .num n => n != 0
  | .str s => s ≠ ""
  | .obj _ => true

/-- JavaScript assignment `o[k] = v` on an object modelled as an
association list: replace the value at an existing key in place,
otherwise append the new binding. -/
def objSet {v : Type} : List (String × v) → String → v → List (String × v)
  | [], k, x => [(k, x)]
  | p :: rest, k, x => if p.1 = k then (k, x) :: rest else p :: objSet rest k x

/-- Property read `o[k]` on an object modelled as an association list. -/
def jsGet {v : Type} : List (String × v) → String → Option v
  | [], _ => none
  | p :: rest, k => if p.1 = k then some p.2 else jsGet rest k

/-- JavaScript object spread `{...a, ...b}`: every binding of `b` is
assigned over `a`, later bindings winning. -/
def spreadMerge {v : Type} (a b : List (String × v)) : List (String × v) :=
  b.foldl (fun acc p => objSet acc p.1 p.2) a

/-- The keys of an object, in order. -/
def objKeys {v : Type} : List (String × v) → List String
  | [] => []
  | p :: rest => p.1 :: objKeys rest

/-- `a ?? b` on options, i.e. the value of `a` when present and `b`
otherwise; used to state lookup priorities of merged objects. -/
def optOr {α : Type} (a b : Option α) : Option α :=
  match a with
  | some x => some x
  | none => b

/-- An object whose keys are pairwise distinct (every actual JavaScript
object and `Map` satisfies this). -/
def NodupKeys {v : Type} (m : List (String × v)) : Prop :=
  (objKeys m).Nodup

instance {v : Type} (m : List (String × v)) : Decidable (NodupKeys m) := by
  unfold NodupKeys; infer_instance

/-- A thrown JavaScript error value, restricted to the `Error`-like
shape the handler manipulates: an optional tRPC `code` string, a
`message`, and an optional `cause`. -/
structure ErrLike where
  code : Option String := none
  message : String := ""
  cause : Option Js := none

/-- The `URIError` thrown by `decodeURIComponent` on malformed input. -/
def uriError : ErrLike := { code := none, message := "URI malformed", cause := none }

/-! ## decodeURIComponent -/

/-- Value of a hexadecimal digit character, if any (both cases are
accepted; the code points 48–57, 65–70 and 97–102 are the digits,
the uppercase and the lowercase letters). -/
def hexVal? (c : Char) : Option Nat :=
  let n := c.toNat
  if 48 ≤ n ∧ n ≤ 57 then some (n - 48)
  else if 65 ≤ n ∧ n ≤ 70 then some (n - 55)
  else if 97 ≤ n ∧ n ≤ 102 then some (n - 87)
  else none

/-- Parse a `%HH` escape at the head of the input, returning the byte
and the rest of the input. -/
def pctByte? : List Char → Option (Nat × List Char)
  | '%' :: h1 :: h2 :: rest =>
    match hexVal? h1, hexVal? h2 with
    | some a, some b => some (16 * a + b, rest)
    | _, _ => none
  | _ => none

/-- Collect `n` UTF-8 continuation bytes, each written as a `%HH`
escape with value in `[0x80, 0xC0)`. -/
def contBytes : Nat → List Char → Option (List Nat × List Char)
  | 0, rest => some ([], rest)
  | n + 1, cs =>
    match pctByte? cs with
    | some (b, rest) =>
      if 0x80 ≤ b ∧ b < 0xC0 then
        (contBytes n rest).map (fun pr => (b :: pr.1, pr.2))
      else none
    | none => none

/-- Assemble a code point from the masked leading-byte value and the
continuation bytes. -/
def asmCp (lead : Nat) (conts : List Nat) : Nat :=
  conts.foldl (fun acc b => acc * 64 + (b - 0x80)) lead

/-- ECMA-262 `Decode` with an empty reserved set, i.e. the semantics of
`decodeURIComponent`, written with a step-counting fuel argument
(`decodeAux cs.length cs` always has enough fuel since every step
consumes at least one character). `none` models a thrown `URIError`. -/
def decodeAux : Nat → List Char → Option (List Char)
  | 0, [] => some []
  | 0, _ :: _ => none
  | _ + 1, [] => some []
  | fuel + 1, '%' :: cs =>
    match pctByte? ('%' :: cs) with
    | none => none
    | some (b, rest) =>
      if b < 0x80 then
        (decodeAux fuel rest).map (fun t => Char.ofNat b :: t)
      else if 0xC0 ≤ b ∧ b < 0xE0 then
        match contBytes 1 rest with
        | some (bs, rest2) =>
          let cp := asmCp (b - 0xC0) bs
          if 0x80 ≤ cp then (decodeAux fuel rest2).map (fun t => Char.ofNat cp :: t)
          else none
        | none => none
      else if 0xE0 ≤ b ∧ b < 0xF0 then
        match contBytes 2 rest with
        | some (bs, rest2) =>
          let cp := asmCp (b - 0xE0) bs
          if 0x800 ≤ cp ∧ ¬ (0xD800 ≤ cp ∧ cp ≤ 0xDFFF) then
            (decodeAux fuel rest2).map (fun t => Char.ofNat cp :: t)
          else none
        | none => none
      else if 0xF0 ≤ b ∧ b < 0xF8 then
        match contBytes 3 rest with
        | some (bs, rest2) =>
          let cp := asmCp (b - 0xF0) bs
          if 0x10000 ≤ cp ∧ cp ≤ 0x10FFFF then
            (decodeAux fuel rest2).map (fun t => Char.ofNat cp :: t)
          else none
        | none => none
      else none
  | fuel + 1, c :: cs => (decodeAux fuel cs).map (fun t => c :: t)

/-- `decodeURIComponent` on a character list; a thrown `URIError`
becomes `Except.error uriError`. -/
def decodeE (cs : List Char) : Except ErrLike (List Char) :=
  match decodeAux cs.length cs with
  | some r => .ok r
  | none => .error uriError

/-! ## URL parsing (`parseUrl` in src/handler.ts) -/

/-- Split a character list at the first `'?'`, mirroring
`url.indexOf('?')` followed by the two `slice`s. -/
def splitAtQ : List Char → List Char × Option (List Char)
  | [] => ([], none)
  | c :: rest =>
    if c = '?' then ([], some rest)
    else
      let pr := splitAtQ rest
      (c :: pr.1, pr.2)

/-- JavaScript `String.prototype.split` with a single-character
separator and no limit (`''.split(sep) = ['']`). -/
def splitAll (sep : Char) : List Char → List (List Char)
  | [] => [[]]
  | c :: rest =>
    let r := splitAll sep rest
    if c = sep then [] :: r
    else
      match r with
      | s :: ss => (c :: s) :: ss
      | [] => [[c]]

/-- The value half of one `key=value` pair of `parseUrl`:
`value ? decodeURIComponent(value) : ''`, where `value` is the second
`split('=')` segment (possibly absent, and falsy when empty). -/
def qValueE (segs : List (List Char)) : Except ErrLike String :=
  match segs[1]? with
  | some v => if v = [] then .ok "" else (decodeE v).map String.mk
  | none => .ok ""

/-- The loop body of `parseUrl`: for every `key=value` pair, skip empty
keys, percent-decode the key, decode the value when it is a nonempty
string (an absent or empty value contributes `''`), and assign into the
accumulated query object. Decoding failures throw (the key is decoded
first, as JavaScript evaluates the assignment target's key expression
before the right-hand side). -/
def parseQueryPairs :
    List (List Char) → List (String × String) → Except ErrLike (List (String × String))
  | [], acc => .ok acc
  | pair :: rest, acc =>
    let segs := splitAll '=' pair
    let key := segs.headD []
    if key = [] then parseQueryPairs rest acc
    else
      match decodeE key, qValueE segs with
      | .error e, _ => .error e
      | .ok _, .error e => .error e
      | .ok k, .ok v => parseQueryPairs rest (objSet acc (String.mk k) v)

/-- `parseUrl(url)` from src/handler.ts: split the target at the first
`'?'` into a pathname and a query string, then parse the query string
into a `Record<string, string>`. -/
def parseUrlE (url : String) : Except ErrLike (String × List (String × String)) :=
  match splitAtQ url.data with
  | (p, none) => .ok (⟨p⟩, [])
  | (p, some qs) =>
    match parseQueryPairs (splitAll '&' qs) [] with
    | .error e => .error e
    | .ok q => .ok (⟨p⟩, q)

/-! ## Path-template compiler (`compilePathPattern` in src/handler.ts)

The source turns a template into the regex string
`'^' + template.replace(/\{([^}]+)\}/g, '([^/]+)') + '$'`.  We model the
produced regex by a token list: every character left untouched by the
replacement becomes `PathToken.lit`, every placeholder becomes
`PathToken.capture` (the group `([^/]+)`).  The matcher semantics
`matchToks` below requires the whole subject to be consumed, which is
exactly what the `^`/`$` anchors added by the source enforce; literal
tokens are matched as exact characters, which is faithful for templates
whose literal characters carry no special regex meaning (the well-formed
domain `wfParts` used by the theorems). -/

/-- One token of the compiled pattern: a literal character or the
capturing group `([^/]+)`. -/
inductive PathToken where
  | lit (c : Char) : PathToken
  | capture : PathToken
deriving DecidableEq, Repr

/-- Scan forward for the first `'}'`, mirroring the regex fragment
`([^}]+)\}`: returns the characters before it and the rest after it. -/
def findBrace : List Char → Option (List Char × List Char)
  | [] => none
  | c :: rest =>
    if c = '}' then some ([], rest)
    else (findBrace rest).map (fun pr => (c :: pr.1, pr.2))

/-- The scan underlying `compilePathPattern`: walk the template; at a
`'{'` that is followed by a nonempty brace-free run and a `'}'`, emit a
capture token and record the placeholder name (this is what the global
regex `\{([^}]+)\}` matches); any other character is left in place as a
literal token. -/
def scanT : List Char → List PathToken × List (List Char)
  | [] => ([], [])
  | c :: rest =>
    if c = '{' then
      match hfb : findBrace rest with
      | some (name, after) =>
        if name = [] then
          let pr := scanT rest
          (.lit c :: pr.1, pr.2)
        else
          let pr := scanT after
          (.capture :: pr.1, name :: pr.2)
      | none =>
        let pr := scanT rest
        (.lit c :: pr.1, pr.2)
    else
      let pr := scanT rest
      (.lit c :: pr.1, pr.2)
termination_by cs => cs.length
decreasing_by
  · simp only [List.length_cons]; omega
  · simp only [List.length_cons]
    have key : ∀ (l n a : List Char), findBrace l = some (n, a) → a.length < l.length := by
      intro l
      induction l with
      | nil => intro n a h; simp [findBrace] at h
      | cons c rs ih =>
        intro n a h
        by_cases hc : c = '}'
        · rw [findBrace, if_pos hc] at h
          simp only [Option.some.injEq, Prod.mk.injEq] at h
          obtain ⟨-, h2⟩ := h
          subst h2
          simp
        · rw [findBrace, if_neg hc] at h
          cases hfb2 : findBrace rs with
          | none => rw [hfb2] at h; simp at h
          | some pr =>
            rw [hfb2] at h
            simp at h
            obtain ⟨-, h2⟩ := h
            have hlt := ih pr.1 pr.2 hfb2
            subst h2
            simp only [List.length_cons]
            omega
    exact Nat.lt_succ_of_lt (key _ _ _ hfb)
  · simp only [List.length_cons]; omega
  · simp only [List.length_cons]; omega

/-- `compilePathPattern(path)` from src/handler.ts: the compiled token
list (the regex body between the `^` and `$` anchors) together with the
parameter names in encounter order. -/
def compilePathPattern (path : String) : List PathToken × List String :=
  let pr := scanT path.data
  (pr.1, pr.2.map String.mk)

/-- Number of capturing groups of a compiled pattern. -/
def captureCount (toks : List PathToken) : Nat :=
  toks.countP (fun t => t = PathToken.capture)

/-- Length of the maximal `'/'`-free run at the head of the input
(the longest text the greedy group `([^/]+)` can take). -/
def nonSlashRun : List Char → Nat
  | [] => 0
  | c :: cs => if c = '/' then 0 else nonSlashRun cs + 1

/-- The candidate splits for the greedy group `([^/]+)`: every nonempty
`'/'`-free prefix of the subject with its remainder, longest first
(the order in which a backtracking regex engine tries them). -/
def splitsDesc (xs : List Char) : List (List Char × List Char) :=
  (List.range (nonSlashRun xs)).reverse.map (fun i => (xs.take (i + 1), xs.drop (i + 1)))

/-- First `some` result of `f` along a list (the backtracking search
order of the regex engine). -/
def firstSome {α β : Type} (f : α → Option β) : List α → Option β
  | [] => none
  | a :: as =>
    match f a with
    | some b => some b
    | none => firstSome f as

/-- Execution of the compiled, anchored regex against a subject string:
`some caps` exactly when `^pattern$` matches, with the list of captured
group texts.  Literal tokens consume one matching character, capture
tokens try every nonempty `'/'`-free prefix longest-first, and the
whole subject must be consumed (the `^`/`$` anchors). -/
def matchToks : List PathToken → List Char → Option (List (List Char))
  | [], [] => some []
  | [], _ :: _ => none
  | .lit _ :: _, [] => none
  | .lit c :: ts, x :: xs => if x = c then matchToks ts xs else none
  | .capture :: ts, xs =>
    firstSome (fun pr => (matchToks ts pr.2).map (fun caps => pr.1 :: caps)) (splitsDesc xs)

/-- Reassemble a subject string from a pattern and a list of captured
texts (the inverse reading of a successful anchored match). -/
def fillTemplate : List PathToken → List (List Char) → Option (List Char)
  | [], [] => some []
  | [], _ :: _ => none
  | .lit c :: ts, caps => (fillTemplate ts caps).map (fun s => c :: s)
  | .capture :: _, [] => none
  | .capture :: ts, cap :: caps => (fillTemplate ts caps).map (fun s => cap ++ s)

/-! ## Requests, responses, route table and dispatcher (src/handler.ts) -/

/-- The incoming HTTP request abstraction (`OpenApiRequest`). -/
structure OpenApiRequest where
  method : String
  url : String
  headers : List (String × String) := []
  body : Js := Js.undef
  query : Option (List (String × Js)) := none

/-- The HTTP response abstraction (`OpenApiResponse`). -/
structure OpenApiResponse where
  status : Nat
  headers : List (String × String)
  body : Js

/-- `method.toUpperCase()` (ASCII, which covers every HTTP method). -/
def jsToUpper (s : String) : String :=
  ⟨s.data.map Char.toUpper⟩

/-- JavaScript `a || b` for an optional string `a` (`undefined` and the
empty string are falsy). -/
def jsOrStr (a : Option String) (b : String) : String :=
  match a with
  | some s => if s = "" then b else s
  | none => b

/-- One row of the route table (`RouteEntry`): HTTP method, compiled
matcher, ordered parameter names, dotted procedure path and the
procedure's kind. -/
structure RouteEntry where
  method : String
  toks : List PathToken
  params : List String
  procedurePath : String
  procType : String

/-- A successful route match (`RouteMatch`): the dotted procedure path,
the procedure kind, and the decoded path parameters. -/
structure RouteMatch where
  procedurePath : String
  procType : String
  params : List (String × String)

/-- The `route.params.forEach` loop of `matchRoute`: decode each
captured text with `decodeURIComponent` and assign it under the
corresponding parameter name.  A parameter name beyond the capture
count reads `match[index+1] = undefined`, which `decodeURIComponent`
coerces to the string `"undefined"` (unreachable for tables built by
`compilePathPattern`). -/
def decodeCaps :
    List String → List (List Char) → List (String × String) →
    Except ErrLike (List (String × String))
  | [], _, acc => .ok acc
  | n :: ns, [], acc => decodeCaps ns [] (objSet acc n "undefined")
  | n :: ns, c :: cs, acc =>
    match decodeE c with
    | .error e => .error e
    | .ok v => decodeCaps ns cs (objSet acc n (String.mk v))

/-- `matchRoute(routes, method, pathname)`: linear scan in registration
order; skip rows whose method differs from the uppercased request
method; on the first row whose anchored regex matches, decode the
captured parameter values (decoding may throw, escaping `matchRoute`). -/
def matchRouteE (routes : List RouteEntry) (method : String) (pathname : String) :
    Except ErrLike (Option RouteMatch) :=
  match routes with
  | [] => .ok none
  | r :: rest =>
    if r.method = jsToUpper method then
      match matchToks r.toks pathname.data with
      | some caps =>
        match decodeCaps r.params caps [] with
        | .error e => .error e
        | .ok prs => .ok (some ⟨r.procedurePath, r.procType, prs⟩)
      | none => matchRouteE rest method pathname
    else matchRouteE rest method pathname

/-- Lift a string-valued record to a `Js`-valued object. -/
def strObj (m : List (String × String)) : List (String × Js) :=
  m.map (fun p => (p.1, Js.str p.2))

/-- A JavaScript object literal made of spreads, `{...a, ...b, ...c}`:
fold `spreadMerge` over the parts starting from the empty object. -/
def objLit (parts : List (List (String × Js))) : List (String × Js) :=
  parts.foldl spreadMerge []

/-- `buildInput(req, routeParams)` from src/handler.ts: re-parse the
URL; for GET build `{...query, ...req.query, ...routeParams}`; for
other methods spread the path parameters over an object body, fall back
to the path parameters alone when the body is not a non-null object,
or to the raw body when there are also no path parameters. -/
def buildInputE (req : OpenApiRequest) (routeParams : List (String × String)) :
    Except ErrLike Js :=
  match parseUrlE req.url with
  | .error e => .error e
  | .ok (_, query) =>
    if jsToUpper req.method = "GET" then
      .ok (Js.obj (objLit [strObj query, req.query.getD [], strObj routeParams]))
    else
      match req.body with
      | Js.obj fields => .ok (Js.obj (objLit [fields, strObj routeParams]))
      | other =>
        if routeParams.length > 0 then .ok (Js.obj (strObj routeParams))
        else .ok other

/-- The effective tRPC code of a thrown error,
`trpcError.code || 'INTERNAL_SERVER_ERROR'`. -/
def effectiveCode (e : ErrLike) : String :=
  jsOrStr e.code "INTERNAL_SERVER_ERROR"

/-- The `statusMap` record of `errorToResponse`. -/
def statusMap : List (String × Nat) :=
  [("PARSE_ERROR", 400), ("BAD_REQUEST", 400), ("UNAUTHORIZED", 401),
   ("FORBIDDEN", 403), ("NOT_FOUND", 404), ("METHOD_NOT_SUPPORTED", 405),
   ("TIMEOUT", 408), ("CONFLICT", 409), ("PRECONDITION_FAILED", 412),
   ("PAYLOAD_TOO_LARGE", 413), ("UNPROCESSABLE_CONTENT", 422),
   ("TOO_MANY_REQUESTS", 429), ("CLIENT_CLOSED_REQUEST", 499),
   ("INTERNAL_SERVER_ERROR", 500), ("NOT_IMPLEMENTED", 501)]

/-- `errorToResponse(error)` from src/handler.ts: status from the fixed
code table (`statusMap[code] || 500`), JSON content type, and the body
`{message, code, data: trpcError.cause || null}`. -/
def errorToResponse (e : ErrLike) : OpenApiResponse :=
  let code := effectiveCode e
  { status := (jsGet statusMap code).getD 500
    headers := [("Content-Type", "application/json")]
    body := Js.obj
      [("message", Js.str e.message), ("code", Js.str code),
       ("data", match e.cause with
                | some v => if v.truthy then v else Js.null
                | none => Js.null)] }

/-- The behaviour of the external collaborators a single dispatch can
invoke, each of which may throw (`Except.error`): the context factory,
the combined `createCaller` / dotted-path navigation / procedure
invocation (which receives the dotted path and the structured input),
and the optional `onError` hook (`some e'` models the hook itself
throwing `e'`). -/
structure Oracles (Ctx : Type) where
  createContext : OpenApiRequest → String × String → Except ErrLike Ctx
  invoke : Ctx → String → Js → Except ErrLike Js
  onError : Option (ErrLike → String → OpenApiRequest → Option Ctx → Option ErrLike)

/-- Strip one trailing slash from the pathname unless it is the whole
path (`pathname.length > 1 && pathname.endsWith('/')`). -/
def stripTrailingSlash (p : String) : String :=
  if p.data.length > 1 ∧ p.data.getLast? = some '/' then ⟨p.data.dropLast⟩ else p

/-- The 404 response produced when no route matches. -/
def notFoundResponse (method pathname : String) : OpenApiResponse :=
  { status := 404
    headers := [("Content-Type", "application/json")]
    body := Js.obj
      [("message", Js.str ("No route found for " ++ method ++ " " ++ pathname)),
       ("code", Js.str "NOT_FOUND")] }

/-- The part of the per-request phase that runs before the `try` block:
parse the URL, normalize the trailing slash, and match the route table.
A `URIError` thrown here escapes the handler. -/
def preMatch (routes : List RouteEntry) (req : OpenApiRequest) :
    Except ErrLike (String × Option RouteMatch) :=
  match parseUrlE req.url with
  | .error e => .error e
  | .ok (pn, _) =>
    let p := stripTrailingSlash pn
    match matchRouteE routes req.method p with
    | .error e => .error e
    | .ok m => .ok (p, m)

/-- The `catch` block of the handler: run the optional `onError` hook
(whose own thrown error escapes the handler), then map the caught error
to a response. -/
def runCatch {Ctx : Type} (orc : Oracles Ctx) (e : ErrLike) (pth : String)
    (req : OpenApiRequest) (ctx? : Option Ctx) : Except ErrLike OpenApiResponse :=
  match orc.onError with
  | some f =>
    match f e pth req ctx? with
    | some e' => .error e'
    | none => .ok (errorToResponse e)
  | none => .ok (errorToResponse e)

/-- The `try`/`catch` region of the handler for a matched route:
create the context, build the structured input, invoke the procedure;
any of these throwing lands in the `catch` block with whatever context
had been produced. -/
def dispatchMatched {Ctx : Type} (orc : Oracles Ctx) (req : OpenApiRequest)
    (m : RouteMatch) : Except ErrLike OpenApiResponse :=
  match orc.createContext req (m.procedurePath, m.procType) with
  | .error e => runCatch orc e m.procedurePath req none
  | .ok ctx =>
    match buildInputE req m.params with
    | .error e => runCatch orc e m.procedurePath req (some ctx)
    | .ok input =>
      match orc.invoke ctx m.procedurePath input with
      | .error e => runCatch orc e m.procedurePath req (some ctx)
      | .ok result =>
        .ok { status := 200
              headers := [("Content-Type", "application/json")]
              body := result }

/-- The per-request function returned by `createOpenApiHandler`:
`Except.error` models the returned promise rejecting (an error thrown
past the handler boundary). -/
def handlerCore {Ctx : Type} (routes : List RouteEntry) (orc : Oracles Ctx)
    (req : OpenApiRequest) : Except ErrLike OpenApiResponse :=
  match preMatch routes req with
  | .error e => .error e
  | .ok (p, none) => .ok (notFoundResponse req.method p)
  | .ok (_, some m) => dispatchMatched orc req m

/-! ## Router tree and the two walkers -/

/-- The `openapi` metadata of a procedure (`meta.openapi`): an optional
explicit HTTP method and the path template. -/
structure OpenapiMeta where
  method : Option String := none
  path : String

/-- A leaf procedure as both walkers see it: its kind
(`'query' | 'mutation' | 'subscription'`) and its optional OpenAPI
metadata. -/
structure ProcedureDefM where
  ptype : String
  meta : Option OpenapiMeta := none

/-- A router tree node.  The source discovers routers structurally
(`isRouter` probes for `_def.router === true`); following §9 of the
specification the disambiguation is made once at the boundary, so the
tree is a sum of leaf procedures and named-children routers. -/
inductive RouterNode where
  | leaf (p : ProcedureDefM) : RouterNode
  | node (children : List (String × RouterNode)) : RouterNode

/-- `prefix ? prefix + '.' + name : name`: join a dotted prefix with a
child name. -/
def joinPath (pre name : String) : String :=
  if pre = "" then name else pre ++ "." ++ name

/-- The `collectRoutes` walk of `buildRouteTable` (src/handler.ts):
descend into nested routers with the extended dotted prefix; for leaf
procedures that carry OpenAPI metadata, compile the path template and
emit a route row whose method is the explicit metadata method or else
`POST` for mutations and `GET` otherwise. -/
def buildRoutesChildren : List (String × RouterNode) → String → List RouteEntry
  | [], _ => []
  | (name, .node cs) :: rest, pre =>
    buildRoutesChildren cs (joinPath pre name) ++ buildRoutesChildren rest pre
  | (name, .leaf p) :: rest, pre =>
    (match p.meta with
     | some meta =>
       let httpMethod :=
         jsOrStr meta.method (if p.ptype = "mutation" then "POST" else "GET")
       let pr := compilePathPattern meta.path
       [{ method := httpMethod, toks := pr.1, params := pr.2,
          procedurePath := joinPath pre name, procType := p.ptype }]
     | none => []) ++ buildRoutesChildren rest pre
termination_by cs _ => sizeOf cs
decreasing_by all_goals (simp; try omega)

/-- `buildRouteTable(router)`: a non-router root has no
`_def.procedures` and yields the empty table. -/
def buildRouteTable : RouterNode → List RouteEntry
  | .leaf _ => []
  | .node cs => buildRoutesChildren cs ""

/-- The handler returned by `createOpenApiHandler({router, ...})`,
with the external behaviours abstracted as `Oracles`. -/
def createOpenApiHandler {Ctx : Type} (router : RouterNode) (orc : Oracles Ctx)
    (req : OpenApiRequest) : Except ErrLike OpenApiResponse :=
  handlerCore (buildRouteTable router) orc req

/-- `collectProcedures(router, prefix)` from the generator: one `Map`
threaded through the traversal; leaves are `set` under their dotted
path, nested routers are collected recursively and their entries `set`
into the same map (so a colliding dotted path silently overwrites). -/
def collectChildren :
    List (String × RouterNode) → String → List (String × ProcedureDefM) →
    List (String × ProcedureDefM)
  | [], _, acc => acc
  | (name, .leaf p) :: rest, pre, acc =>
    collectChildren rest pre (objSet acc (joinPath pre name) p)
  | (name, .node cs) :: rest, pre, acc =>
    collectChildren rest pre
      (spreadMerge acc (collectChildren cs (joinPath pre name) []))
termination_by cs _ _ => sizeOf cs
decreasing_by all_goals (simp; try omega)

/-- `collectProcedures` at the root (empty prefix, fresh map); a
non-router root yields the empty map. -/
def collectProcedures : RouterNode → List (String × ProcedureDefM)
  | .leaf _ => []
  | .node cs => collectChildren cs "" []

/-- Specification-side description of the flattening: the dotted path
of every leaf, in traversal order, obtained by joining ancestor router
names and the leaf name with `'.'`. -/
def leafPathsChildren : List (String × RouterNode) → String → List String
  | [], _ => []
  | (name, .leaf _) :: rest, pre => joinPath pre name :: leafPathsChildren rest pre
  | (name, .node cs) :: rest, pre =>
    leafPathsChildren cs (joinPath pre name) ++ leafPathsChildren rest pre
termination_by cs _ => sizeOf cs
decreasing_by all_goals (simp; try omega)

/-- Number of leaf (non-router) nodes of a children list. -/
def countLeaves : List (String × RouterNode) → Nat
  | [] => 0
  | (_, .leaf _) :: rest => 1 + countLeaves rest
  | (_, .node cs) :: rest => countLeaves cs + countLeaves rest
termination_by cs => sizeOf cs
decreasing_by all_goals (simp; try omega)

/-! ## OpenAPI input-schema partitioning (generator part of the bundle) -/

/-- An OpenAPI schema object as the generator manipulates it: the
`type`, `properties` and `required` fields it inspects, plus the other
fields carried along verbatim by the object spread. -/
structure SchemaObject where
  type : Option String := none
  properties : Option (List (String × Js)) := none
  required : Option (List String) := none
  rest : List (String × Js) := []

/-- The generated request-body object, with the `content` map
flattened to its single content-type key. -/
structure RequestBodyObject where
  required : Bool
  contentType : String
  schema : SchemaObject

/-- A generated parameter object. -/
structure ParameterObject where
  name : String
  location : String
  required : Bool
  schema : Js

/-- The `delete bodyProperties[param]` loop: remove every
path-parameter key from the copied properties object. -/
def deleteKeys (props : List (String × Js)) (pathParams : List String) :
    List (String × Js) :=
  pathParams.foldl (fun m param => m.filter (fun p => ¬ p.1 = param)) props

/-- `buildRequestBody(inputSchema, pathParams, contentType)` from the
generator: for an object schema with properties, delete the path
parameters from `properties`, filter them out of `required` (an empty
residual `required` array becomes `undefined`), and emit no body at all
if no properties remain; a non-object schema is passed through as the
body schema unchanged. -/
def buildRequestBody :
    Option SchemaObject → List String → Option String → Option RequestBodyObject
  | none, _, _ => none
  | some schemaObj, pathParams, contentType =>
    let ct := contentType.getD "application/json"
    if schemaObj.type = some "object" ∧ schemaObj.properties.isSome then
      let props := schemaObj.properties.getD []
      let bodyProperties := deleteKeys props pathParams
      let bodyRequired :=
        (schemaObj.required.getD []).filter (fun r => ¬ pathParams.contains r)
      if bodyProperties.length = 0 then none
      else
        some { required := true
               contentType := ct
               schema :=
                 { schemaObj with
                   properties := some bodyProperties
                   required := if bodyRequired.length > 0 then some bodyRequired else none } }
    else
      some { required := true, contentType := ct, schema := schemaObj }

/-- `buildPathParameters(pathParams, inputSchema)`: one required `path`
parameter per template name, typed from the matching input property
when present (falsy property schemas fall back like absent ones) and
defaulted to `{type: 'string'}` otherwise. -/
def buildPathParameters (pathParams : List String) (inputSchema : Option SchemaObject) :
    List ParameterObject :=
  pathParams.map (fun param =>
    let paramSchema := (inputSchema.bind (fun s => s.properties)).bind
      (fun props => jsGet props param)
    { name := param
      location := "path"
      required := true
      schema :=
        match paramSchema with
        | some v => if v.truthy then v else Js.obj [("type", Js.str "string")]
        | none => Js.obj [("type", Js.str "string")] })

/-- The request-body step of the generator's per-procedure loop:
a request body is built (and attached when nonempty) only for non-GET
methods. -/
def operationRequestBody (httpMethod : String) (inputSchema : Option SchemaObject)
    (pathParams : List String) (contentType : Option String) :
    Option RequestBodyObject :=
  if httpMethod = "GET" then none
  else buildRequestBody inputSchema pathParams contentType

/-! ## Schema carriers (src/procedure.ts) -/

/-- A Typia JSON-schema collection: the ordered schema list plus the
`components` side-map, both opaque to the carrier helpers. -/
structure SchemaCollection where
  schemas : List Js
  components : Option Js := none

/-- A value probed by the carrier helpers.  `isTypiaParser` checks
`typeof parser === 'function'` first, so every non-callable value is
collapsed into `notFunction`; a callable value carries the value of its
`_isTypiaParser` field (if the field exists) and its `_typiaSchema`
field (absent or a schema collection, per the `TypiaParser` contract
established by `withSchema`). -/
inductive ParserVal where
  | notFunction : ParserVal
  | func (marker : Option Js) (schema : Option SchemaCollection) : ParserVal

/-- `x === true` for a field value. -/
def isStrictTrue : Option Js → Bool
  | some (Js.bool true) => true
  | _ => false

/-- Whether a value is callable. -/
def ParserVal.callable : ParserVal → Bool
  | .notFunction => false
  | .func _ _ => true

/-- The `_isTypiaParser` field of a callable value, if present. -/
def ParserVal.marker : ParserVal → Option Js
  | .notFunction => none
  | .func m _ => m

/-- The `_typiaSchema` field of a callable value, if present. -/
def ParserVal.schemaField : ParserVal → Option SchemaCollection
  | .notFunction => none
  | .func _ s => s

/-- `isTypiaParser(parser)` from src/procedure.ts:
`typeof parser === 'function' && '_isTypiaParser' in parser &&
parser._isTypiaParser === true`. -/
def isTypiaParser : ParserVal → Bool
  | .notFunction => false
  | .func marker _ => isStrictTrue marker

/-- `getSchemaFromParser(parser)`: `parser._typiaSchema.schemas[0]`
when the value qualifies and its (always-truthy, being an object)
schema collection is present, `undefined` otherwise. -/
def getSchemaFromParser (p : ParserVal) : Option Js :=
  if isTypiaParser p then
    match p.schemaField with
    | some coll => coll.schemas.head?
    | none => none
  else none

/-- `getFullSchemaFromParser(parser)`: same gating, whole collection. -/
def getFullSchemaFromParser (p : ParserVal) : Option SchemaCollection :=
  if isTypiaParser p then p.schemaField else none


/-! ## Specification-side and witness-level definitions -/

/-- The literal characters of a pattern, in order. -/
def litString : List PathToken → List Char
  | [] => []
  | .lit c :: ts => c :: litString ts
  | .capture :: ts => litString ts

/-! ## Path templates as structured data

To quantify over "path templates with N placeholders" the theorems use
a structured description: a template is a list of literal characters
and `{name}` placeholders, rendered to the template string the compiler
receives.  Well-formedness `wfParts` keeps the literals out of regex
metacharacter territory (where the source's unescaped `RegExp`
construction would change their meaning) and the names nonempty and
brace-free (what the placeholder regex `\{([^}]+)\}` can produce). -/

inductive TemplatePart where
  | lit (c : Char) : TemplatePart
  | param (name : List Char) : TemplatePart

/-- Render a structured template to the template string. -/
def renderT : List TemplatePart → List Char
  | [] => []
  | .lit c :: rest => c :: renderT rest
  | .param n :: rest => '{' :: (n ++ '}' :: renderT rest)

/-- The tokens the compiler should produce for a structured template. -/
def tokensOfParts : List TemplatePart → List PathToken
  | [] => []
  | .lit c :: rest => .lit c :: tokensOfParts rest
  | .param _ :: rest => .capture :: tokensOfParts rest

/-- The placeholder names of a structured template, in left-to-right
encounter order. -/
def paramNamesOf : List TemplatePart → List (List Char)
  | [] => []
  | .lit _ :: rest => paramNamesOf rest
  | .param n :: rest => n :: paramNamesOf rest

/-- Characters with no special meaning inside a JavaScript regex. -/
def regexSafeChar (c : Char) : Bool :=
  ¬ (c ∈ ['\\', '^', '$', '.', '|', '?', '*', '+', '(', ')', '[', ']', '{', '}'])

/-- Well-formedness of one template part. -/
def wfPart : TemplatePart → Bool
  | .lit c => regexSafeChar c
  | .param n => decide (n ≠ []) && decide ('}' ∉ n)

/-- Well-formedness of a structured template. -/
def wfParts (ps : List TemplatePart) : Bool :=
  ps.all wfPart


/-- Specification-side reading of `getSchemaFromParser`: return
`schemaCollection.schemas[0]` exactly when the value qualifies as a
carrier and has a populated schema field, `undefined` otherwise. -/
def specExtractSchema (x : ParserVal) : Option Js :=
  if x.callable && isStrictTrue x.marker && x.schemaField.isSome then
    ((x.schemaField).getD ⟨[], none⟩).schemas.head?
  else none

/-- The code→status table exactly as the specification lists it, with
unrecognized codes defaulting to 500. -/
def claimStatusTable (code : String) : Nat :=
  if code = "PARSE_ERROR" ∨ code = "BAD_REQUEST" then 400
  else if code = "UNAUTHORIZED" then 401
  else if code = "FORBIDDEN" then 403
  else if code = "NOT_FOUND" then 404
  else if code = "METHOD_NOT_SUPPORTED" then 405
  else if code = "TIMEOUT" then 408
  else if code = "CONFLICT" then 409
  else if code = "PRECONDITION_FAILED" then 412
  else if code = "PAYLOAD_TOO_LARGE" then 413
  else if code = "UNPROCESSABLE_CONTENT" then 422
  else if code = "TOO_MANY_REQUESTS" then 429
  else if code = "CLIENT_CLOSED_REQUEST" then 499
  else if code = "INTERNAL_SERVER_ERROR" then 500
  else if code = "NOT_IMPLEMENTED" then 501
  else 500

/-- Specification-side residual properties: delete every
path-parameter name from `properties`. -/
def residualProps (props : List (String × Js)) (pathParams : List String) :
    List (String × Js) :=
  props.filter (fun p => decide (p.1 ∉ pathParams))

/-- Specification-side residual required list: filter the
path-parameter names out of `required`. -/
def residualRequired (required pathParams : List String) : List String :=
  required.filter (fun r => decide (r ∉ pathParams))

/-- An oracle set for witnesses: context factory and procedure both
succeed trivially, no error hook. -/
def exOrcUnit : Oracles Unit :=
  { createContext := fun _ _ => .ok ()
    invoke := fun _ _ _ => .ok Js.null
    onError := none }

/-- A concrete route row for `GET /users`
(the compiled tokens written out). -/
def exRouteUsers : RouteEntry :=
  { method := "GET"
    toks := [.lit '/', .lit 'u', .lit 's', .lit 'e', .lit 'r', .lit 's']
    params := []
    procedurePath := "users.list"
    procType := "query" }

/-- Decode a list of captured texts left to right, stopping at the
first `URIError` (the order of `route.params.forEach`). -/
def decodeAll : List (List Char) → Except ErrLike (List String)
  | [] => .ok []
  | c :: cs =>
    match decodeE c with
    | .error e => .error e
    | .ok d =>
      match decodeAll cs with
      | .error e => .error e
      | .ok ds => .ok (String.mk d :: ds)

/-- An `onError` hook that never itself throws (absent, or returning
normally on every call). -/
def onErrorQuiet {Ctx : Type} (orc : Oracles Ctx) : Prop :=
  ∀ f, orc.onError = some f →
    ∀ e pth r c, f e pth r c = none

/-! ## Association-list object lemmas -/

theorem jsGet_objSet {v : Type} (m : List (String × v)) (k k' : String) (x : v) :
    jsGet (objSet m k x) k' = if k' = k then some x else jsGet m k' := by
  induction m with
  | nil =>
    by_cases h : k' = k
    · simp [objSet, jsGet, h]
    · have h2 : ¬ k = k' := fun hx => h hx.symm
      simp [objSet, jsGet, h, h2]
  | cons p rest ih =>
    by_cases hp : p.1 = k
    · simp only [objSet, if_pos hp]
      by_cases h : k' = k
      · simp [jsGet, h]
      · have h2 : ¬ k = k' := fun hx => h hx.symm
        have hp2 : ¬ p.1 = k' := fun hx => h (hx.symm.trans hp)
        simp [jsGet, h, h2, hp2]
    · simp only [objSet, if_neg hp]
      by_cases hq : p.1 = k'
      · have h : ¬ k' = k := fun hx => hp (hq.trans hx)
        simp [jsGet, hq, h]
      · simp [jsGet, hq, ih]

theorem mem_objKeys_iff_jsGet {v : Type} (m : List (String × v)) (k : String) :
    k ∈ objKeys m ↔ (jsGet m k).isSome := by
  induction m with
  | nil => simp [objKeys, jsGet]
  | cons p rest ih =>
    by_cases hq : p.1 = k
    · simp [objKeys, jsGet, hq]
    · have h2 : ¬ k = p.1 := fun hx => hq hx.symm
      simp [objKeys, jsGet, hq, h2, ih]

theorem jsGet_eq_none_of_not_mem {v : Type} {m : List (String × v)} {k : String}
    (h : k ∉ objKeys m) : jsGet m k = none := by
  cases hg : jsGet m k with
  | none => rfl
  | some x => exact absurd ((mem_objKeys_iff_jsGet m k).2 (by simp [hg])) h

theorem objKeys_objSet {v : Type} (m : List (String × v)) (k k' : String) (x : v) :
    k' ∈ objKeys (objSet m k x) ↔ k' = k ∨ k' ∈ objKeys m := by
  induction m with
  | nil => simp [objSet, objKeys]
  | cons p rest ih =>
    by_cases hp : p.1 = k
    · simp only [objSet, if_pos hp, objKeys, List.mem_cons]
      constructor
      · rintro (h | h)
        · exact Or.inl h
        · exact Or.inr (Or.inr h)
      · rintro (h | h | h)
        · exact Or.inl h
        · exact Or.inl (h.trans hp)
        · exact Or.inr h
    · simp only [objSet, if_neg hp, objKeys, List.mem_cons, ih]
      tauto

theorem nodupKeys_objSet {v : Type} {m : List (String × v)} (k : String) (x : v)
    (h : NodupKeys m) : NodupKeys (objSet m k x) := by
  induction m with
  | nil => simp [objSet, NodupKeys, objKeys]
  | cons p rest ih =>
    simp only [NodupKeys, objKeys, List.nodup_cons] at h
    by_cases hp : p.1 = k
    · simp only [objSet, if_pos hp, NodupKeys, objKeys, List.nodup_cons]
      exact ⟨hp ▸ h.1, h.2⟩
    · simp only [objSet, if_neg hp, NodupKeys, objKeys, List.nodup_cons]
      refine ⟨fun hmem => ?_, ih h.2⟩
      rcases (objKeys_objSet rest k p.1 x).1 hmem with h1 | h1
      · exact hp h1
      · exact h.1 h1

theorem length_objSet_mem {v : Type} {m : List (String × v)} {k : String} (x : v)
    (h : k ∈ objKeys m) : (objSet m k x).length = m.length := by
  induction m with
  | nil => simp [objKeys] at h
  | cons p rest ih =>
    by_cases hp : p.1 = k
    · simp [objSet, hp]
    · simp only [objKeys, List.mem_cons] at h
      rcases h with h | h
      · exact absurd h.symm hp
      · simp [objSet, hp, ih h]

theorem length_objSet_not_mem {v : Type} {m : List (String × v)} {k : String} (x : v)
    (h : k ∉ objKeys m) : (objSet m k x).length = m.length + 1 := by
  induction m with
  | nil => simp [objSet]
  | cons p rest ih =>
    simp only [objKeys, List.mem_cons] at h
    push_neg at h
    have hp : ¬ p.1 = k := fun hx => h.1 hx.symm
    simp [objSet, hp, ih h.2]

theorem objSet_eq_append_of_not_mem {v : Type} {m : List (String × v)} {k : String}
    (x : v) (h : k ∉ objKeys m) : objSet m k x = m ++ [(k, x)] := by
  induction m with
  | nil => simp [objSet]
  | cons p rest ih =>
    simp only [objKeys, List.mem_cons] at h
    push_neg at h
    have hp : ¬ p.1 = k := fun hx => h.1 hx.symm
    simp [objSet, hp, ih h.2]

theorem objKeys_append {v : Type} (a b : List (String × v)) :
    objKeys (a ++ b) = objKeys a ++ objKeys b := by
  induction a with
  | nil => simp [objKeys]
  | cons p rest ih => simp [objKeys, ih]

theorem spreadMerge_cons {v : Type} (a : List (String × v)) (p : String × v)
    (b : List (String × v)) :
    spreadMerge a (p :: b) = spreadMerge (objSet a p.1 p.2) b := by
  simp [spreadMerge]

theorem jsGet_spreadMerge {v : Type} :
    ∀ (b : List (String × v)) (a : List (String × v)) (k : String), NodupKeys b →
      jsGet (spreadMerge a b) k = optOr (jsGet b k) (jsGet a k) := by
  intro b
  induction b with
  | nil => intro a k _; simp [spreadMerge, jsGet, optOr]
  | cons p bs ih =>
    intro a k hb
    simp only [NodupKeys, objKeys, List.nodup_cons] at hb
    rw [spreadMerge_cons, ih _ k hb.2]
    by_cases hk : p.1 = k
    · have hbs : jsGet bs k = none := jsGet_eq_none_of_not_mem (hk ▸ hb.1)
      rw [jsGet_objSet]
      simp [jsGet, hk, hbs, optOr]
    · have h2 : ¬ k = p.1 := fun hx => hk hx.symm
      rw [jsGet_objSet]
      simp [jsGet, hk, h2]

theorem spreadMerge_eq_append {v : Type} :
    ∀ (b : List (String × v)) (a : List (String × v)), NodupKeys b →
      (∀ k ∈ objKeys b, k ∉ objKeys a) → spreadMerge a b = a ++ b := by
  intro b
  induction b with
  | nil => intro a _ _; simp [spreadMerge]
  | cons p bs ih =>
    intro a hb hdisj
    simp only [NodupKeys, objKeys, List.nodup_cons] at hb
    rw [spreadMerge_cons,
        objSet_eq_append_of_not_mem p.2 (hdisj p.1 (by simp [objKeys]))]
    rw [ih (a ++ [(p.1, p.2)]) hb.2 ?_]
    · simp
    · intro k hk
      rw [objKeys_append, List.mem_append]
      push_neg
      constructor
      · exact hdisj k (by simp [objKeys, hk])
      · simp only [objKeys, List.mem_cons]
        rintro (h | h)
        · exact hb.1 (h ▸ hk)
        · simp [objKeys] at h

theorem spreadMerge_nil {v : Type} {b : List (String × v)} (hb : NodupKeys b) :
    spreadMerge [] b = b := by
  rw [spreadMerge_eq_append b [] hb (by simp [objKeys])]
  simp

/-! ## Matcher lemmas -/

theorem firstSome_eq_some {α β : Type} {f : α → Option β} :
    ∀ {l : List α} {b : β}, firstSome f l = some b → ∃ a ∈ l, f a = some b := by
  intro l
  induction l with
  | nil => intro b h; simp [firstSome] at h
  | cons a as ih =>
    intro b h
    simp only [firstSome] at h
    cases hfa : f a with
    | some b' =>
      rw [hfa] at h
      exact ⟨a, List.mem_cons_self a as, hfa.trans h⟩
    | none =>
      rw [hfa] at h
      obtain ⟨a', ha', hfa'⟩ := ih h
      exact ⟨a', List.mem_cons_of_mem a ha', hfa'⟩

theorem nonSlashRun_le_length (xs : List Char) : nonSlashRun xs ≤ xs.length := by
  induction xs with
  | nil => simp [nonSlashRun]
  | cons c cs ih =>
    by_cases h : c = '/' <;> simp [nonSlashRun, h] <;> omega

theorem not_slash_mem_take {xs : List Char} :
    ∀ {j : Nat}, j ≤ nonSlashRun xs → '/' ∉ xs.take j := by
  induction xs with
  | nil => intro j _; simp
  | cons c cs ih =>
    intro j hj
    by_cases hc : c = '/'
    · simp [nonSlashRun, hc] at hj
      subst hj; simp
    · cases j with
      | zero => simp
      | succ j' =>
        simp only [nonSlashRun, if_neg hc] at hj
        simp only [List.take_succ_cons, List.mem_cons]
        push_neg
        exact ⟨fun hx => hc hx.symm, ih (by omega)⟩

theorem splitsDesc_spec {xs : List Char} {pr : List Char × List Char}
    (h : pr ∈ splitsDesc xs) :
    pr.1 ≠ [] ∧ '/' ∉ pr.1 ∧ pr.1 ++ pr.2 = xs := by
  simp only [splitsDesc, List.mem_map, List.mem_reverse, List.mem_range] at h
  obtain ⟨i, hi, hpr⟩ := h
  subst hpr
  dsimp only
  have hlen : i + 1 ≤ xs.length := le_trans hi (nonSlashRun_le_length xs)
  refine ⟨?_, ?_, List.take_append_drop _ _⟩
  · intro hx
    have h2 := congrArg List.length hx
    rw [List.length_take] at h2
    simp only [List.length_nil] at h2
    omega
  · exact not_slash_mem_take (by omega)

/-- Soundness of a successful anchored match: the subject is exactly
the template re-filled with the captured texts, there are as many
captures as capturing groups, and every captured text is a nonempty
run of non-slash characters. -/
theorem matchToks_sound :
    ∀ (toks : List PathToken) (s : List Char) (caps : List (List Char)),
      matchToks toks s = some caps →
      fillTemplate toks caps = some s
      ∧ caps.length = captureCount toks
      ∧ ∀ cap ∈ caps, cap ≠ [] ∧ '/' ∉ cap := by
  intro toks
  induction toks with
  | nil =>
    intro s caps h
    cases s with
    | nil =>
      simp [matchToks] at h
      subst h
      simp [fillTemplate, captureCount]
    | cons c cs => simp [matchToks] at h
  | cons t ts ih =>
    intro s caps h
    cases t with
    | lit c =>
      cases s with
      | nil => simp [matchToks] at h
      | cons x xs =>
        simp only [matchToks] at h
        by_cases hx : x = c
        · rw [if_pos hx] at h
          obtain ⟨h1, h2, h3⟩ := ih xs caps h
          refine ⟨?_, by simpa [captureCount] using h2, h3⟩
          simp [fillTemplate, h1, hx]
        · rw [if_neg hx] at h
          exact absurd h (by simp)
    | capture =>
      simp only [matchToks] at h
      obtain ⟨pr, hpr, hf⟩ := firstSome_eq_some h
      obtain ⟨hne, hslash, happ⟩ := splitsDesc_spec hpr
      cases hmt : matchToks ts pr.2 with
      | none => rw [hmt] at hf; simp at hf
      | some caps' =>
        rw [hmt] at hf
        simp at hf
        obtain ⟨h1, h2, h3⟩ := ih pr.2 caps' hmt
        subst hf
        refine ⟨?_, ?_, ?_⟩
        · simp [fillTemplate, h1, happ]
        · simp [captureCount, h2]
        · intro cap hcap
          rcases List.mem_cons.1 hcap with hcap | hcap
          · exact hcap ▸ ⟨hne, hslash⟩
          · exact h3 cap hcap
theorem fillTemplate_no_captures :
    ∀ {toks : List PathToken}, captureCount toks = 0 →
      fillTemplate toks [] = some (litString toks) := by
  intro toks
  induction toks with
  | nil => intro _; simp [fillTemplate, litString]
  | cons t ts ih =>
    intro h
    cases t with
    | lit c =>
      simp only [captureCount, List.countP_cons] at h
      simp only [fillTemplate, litString]
      rw [ih (by simpa [captureCount] using h)]
      rfl
    | capture => simp [captureCount, List.countP_cons] at h

theorem matchToks_no_captures :
    ∀ {toks : List PathToken}, captureCount toks = 0 →
      matchToks toks (litString toks) = some [] := by
  intro toks
  induction toks with
  | nil => intro _; simp [litString, matchToks]
  | cons t ts ih =>
    intro h
    cases t with
    | lit c =>
      simp only [litString, matchToks, if_pos rfl]
      exact ih (by simpa [captureCount, List.countP_cons] using h)
    | capture => simp [captureCount, List.countP_cons] at h

/-- `findBrace` on a brace-free run followed by `'}'` splits exactly
there. -/
theorem findBrace_append {n t : List Char} (h : '}' ∉ n) :
    findBrace (n ++ '}' :: t) = some (n, t) := by
  induction n with
  | nil => simp [findBrace]
  | cons c cs ih =>
    have hc : c ≠ '}' := by intro hx; exact h (hx ▸ List.mem_cons_self c cs)
    have hcs : '}' ∉ cs := fun hx => h (List.mem_cons_of_mem c hx)
    simp [findBrace, hc, ih hcs]

theorem scanT_nil : scanT [] = ([], []) := by
  rw [scanT]

theorem scanT_cons_lit {c : Char} (t : List Char) (h : c ≠ '{') :
    scanT (c :: t) = (.lit c :: (scanT t).1, (scanT t).2) := by
  rw [scanT]
  simp [h]

theorem scanT_cons_param {n : List Char} (t : List Char) (hne : n ≠ [])
    (hnb : '}' ∉ n) :
    scanT ('{' :: (n ++ '}' :: t)) = (.capture :: (scanT t).1, n :: (scanT t).2) := by
  rw [scanT]
  split
  · split
    · next name after heq =>
        rw [findBrace_append hnb] at heq
        simp only [Option.some.injEq, Prod.mk.injEq] at heq
        obtain ⟨h1, h2⟩ := heq
        subst h1; subst h2
        simp [hne]
    · next heq =>
        rw [findBrace_append hnb] at heq
        simp at heq
  · next hcond => exact absurd rfl hcond

/-- The scan recovers the structure of a well-formed rendered template. -/
theorem scanT_render :
    ∀ (ps : List TemplatePart), wfParts ps = true →
      scanT (renderT ps) = (tokensOfParts ps, paramNamesOf ps) := by
  intro ps
  induction ps with
  | nil => intro _; simp [renderT, tokensOfParts, paramNamesOf, scanT_nil]
  | cons p rest ih =>
    intro h
    simp only [wfParts, List.all_cons, Bool.and_eq_true] at h
    have hrest := ih h.2
    cases p with
    | lit c =>
      have hc : c ≠ '{' := by
        intro hx
        have := h.1
        simp [wfPart, regexSafeChar, hx] at this
      simp [renderT, tokensOfParts, paramNamesOf, scanT_cons_lit _ hc, hrest]
    | param n =>
      have h1 := h.1
      simp only [wfPart, Bool.and_eq_true, decide_eq_true_eq] at h1
      simp [renderT, tokensOfParts, paramNamesOf,
            scanT_cons_param _ h1.1 h1.2, hrest]

theorem captureCount_tokensOfParts (ps : List TemplatePart) :
    captureCount (tokensOfParts ps) = (paramNamesOf ps).length := by
  induction ps with
  | nil => simp [tokensOfParts, paramNamesOf, captureCount]
  | cons p rest ih =>
    cases p with
    | lit c =>
      show captureCount (.lit c :: tokensOfParts rest) = (paramNamesOf rest).length
      rw [← ih]
      simp [captureCount, List.countP_cons]
    | param n =>
      show captureCount (.capture :: tokensOfParts rest) = (paramNamesOf rest).length + 1
      rw [← ih]
      simp [captureCount, List.countP_cons]

theorem litString_tokensOfParts {ps : List TemplatePart}
    (h : paramNamesOf ps = []) : litString (tokensOfParts ps) = renderT ps := by
  induction ps with
  | nil => simp [tokensOfParts, renderT, litString]
  | cons p rest ih =>
    cases p with
    | lit c =>
      simp only [paramNamesOf] at h
      simp [tokensOfParts, renderT, litString, ih h]
    | param n => simp [paramNamesOf] at h

/-! ## C6: the path-template compiler -/

/-- C6: For every path template containing N `{name}` placeholders
(rendered from a well-formed structured template), compiling yields a
matcher with exactly N capturing groups and a parameter-name list of
length N in left-to-right encounter order; each group matches one or
more non-slash characters; the matcher is anchored at both ends, so a
successful match decomposes the whole subject exactly, and a template
with zero placeholders has an empty parameter list and accepts exactly
its own rendering. -/
theorem compilePathPattern_placeholders (ps : List TemplatePart)
    (h : wfParts ps = true) :
    (compilePathPattern ⟨renderT ps⟩).2 = (paramNamesOf ps).map String.mk
    ∧ captureCount (compilePathPattern ⟨renderT ps⟩).1 = (paramNamesOf ps).length
    ∧ (∀ s caps, matchToks (compilePathPattern ⟨renderT ps⟩).1 s = some caps →
        fillTemplate (compilePathPattern ⟨renderT ps⟩).1 caps = some s
        ∧ caps.length = (paramNamesOf ps).length
        ∧ ∀ cap ∈ caps, cap ≠ [] ∧ '/' ∉ cap)
    ∧ (paramNamesOf ps = [] →
        ∀ s, (matchToks (compilePathPattern ⟨renderT ps⟩).1 s).isSome ↔ s = renderT ps) := by
  have hscan : scanT (String.mk (renderT ps)).data = (tokensOfParts ps, paramNamesOf ps) :=
    scanT_render ps h
  have h1 : (compilePathPattern ⟨renderT ps⟩).1 = tokensOfParts ps := by
    simp [compilePathPattern, hscan]
  have h2 : (compilePathPattern ⟨renderT ps⟩).2 = (paramNamesOf ps).map String.mk := by
    simp [compilePathPattern, hscan]
  refine ⟨h2, ?_, ?_, ?_⟩
  · rw [h1, captureCount_tokensOfParts]
  · intro s caps hm
    rw [h1] at hm ⊢
    obtain ⟨f1, f2, f3⟩ := matchToks_sound _ _ _ hm
    exact ⟨f1, f2.trans (captureCount_tokensOfParts ps), f3⟩
  · intro hnone s
    rw [h1]
    have hcc : captureCount (tokensOfParts ps) = 0 := by
      rw [captureCount_tokensOfParts, hnone]; rfl
    constructor
    · intro hs
      obtain ⟨caps, hm⟩ := Option.isSome_iff_exists.1 hs
      obtain ⟨f1, f2, -⟩ := matchToks_sound _ _ _ hm
      have hcaps : caps = [] := List.length_eq_zero.1 (f2.trans hcc)
      subst hcaps
      rw [fillTemplate_no_captures hcc] at f1
      have := Option.some.inj f1
      rw [← this, litString_tokensOfParts hnone]
    · intro hs
      subst hs
      rw [← litString_tokensOfParts hnone, matchToks_no_captures hcc]
      rfl

/-- Witness for C6 at the concrete template `/u/{id}`. -/
theorem compilePathPattern_placeholders_witness :
    wfParts [TemplatePart.lit '/', TemplatePart.lit 'u', TemplatePart.lit '/',
             TemplatePart.param ['i', 'd']] = true
    ∧ (compilePathPattern ⟨renderT [TemplatePart.lit '/', TemplatePart.lit 'u',
        TemplatePart.lit '/', TemplatePart.param ['i', 'd']]⟩).2 = ["id"] :=
  ⟨by decide,
   (compilePathPattern_placeholders _ (by decide)).1.trans (by decide)⟩

/-! ## C9: schema-carrier predicate and extraction -/

theorem isStrictTrue_iff (m : Option Js) :
    isStrictTrue m = true ↔ m = some (Js.bool true) := by
  cases m with
  | none => simp [isStrictTrue]
  | some v =>
    cases v with
    | bool b => cases b <;> simp [isStrictTrue]
    | undef => simp [isStrictTrue]
    | null => simp [isStrictTrue]
    | num n => simp [isStrictTrue]
    | str s => simp [isStrictTrue]
    | obj f => simp [isStrictTrue]
/-- C9: For every value, the carrier predicate holds iff the value
is callable and carries the marker field strictly equal to `true`, and
schema extraction returns `schemas[0]` of the collection exactly when
the value qualifies and has a populated schema field, and `undefined`
otherwise (a total function: no error), so non-carrier parsers degrade
to schema-less handling. -/
theorem isTypiaParser_getSchema_spec (x : ParserVal) :
    (isTypiaParser x = true ↔ x.callable = true ∧ x.marker = some (Js.bool true))
    ∧ getSchemaFromParser x = specExtractSchema x := by
  constructor
  · cases x with
    | notFunction => simp [isTypiaParser, ParserVal.callable]
    | func m s =>
      simp [isTypiaParser, ParserVal.callable, ParserVal.marker, isStrictTrue_iff]
  · cases x with
    | notFunction => simp [getSchemaFromParser, specExtractSchema, isTypiaParser,
        ParserVal.callable]
    | func m s =>
      by_cases hm : m = some (Js.bool true)
      · cases s with
        | none =>
          simp [getSchemaFromParser, specExtractSchema, isTypiaParser,
                ParserVal.callable, ParserVal.marker, ParserVal.schemaField, hm,
                (isStrictTrue_iff m).2 hm]
        | some coll =>
          simp [getSchemaFromParser, specExtractSchema, isTypiaParser,
                ParserVal.callable, ParserVal.marker, ParserVal.schemaField, hm,
                (isStrictTrue_iff m).2 hm]
      · have hm2 : isStrictTrue m = false := by
          cases hst : isStrictTrue m
          · rfl
          · exact absurd ((isStrictTrue_iff m).1 hst) hm
        simp [getSchemaFromParser, specExtractSchema, isTypiaParser,
              ParserVal.callable, ParserVal.marker, ParserVal.schemaField, hm, hm2]

/-! ## C4: error-to-response mapping -/
theorem statusMap_getD (c : String) :
    (jsGet statusMap c).getD 500 = claimStatusTable c := by
  by_cases h1 : c = "PARSE_ERROR"
  · subst h1; decide
  by_cases h2 : c = "BAD_REQUEST"
  · subst h2; decide
  by_cases h3 : c = "UNAUTHORIZED"
  · subst h3; decide
  by_cases h4 : c = "FORBIDDEN"
  · subst h4; decide
  by_cases h5 : c = "NOT_FOUND"
  · subst h5; decide
  by_cases h6 : c = "METHOD_NOT_SUPPORTED"
  · subst h6; decide
  by_cases h7 : c = "TIMEOUT"
  · subst h7; decide
  by_cases h8 : c = "CONFLICT"
  · subst h8; decide
  by_cases h9 : c = "PRECONDITION_FAILED"
  · subst h9; decide
  by_cases h10 : c = "PAYLOAD_TOO_LARGE"
  · subst h10; decide
  by_cases h11 : c = "UNPROCESSABLE_CONTENT"
  · subst h11; decide
  by_cases h12 : c = "TOO_MANY_REQUESTS"
  · subst h12; decide
  by_cases h13 : c = "CLIENT_CLOSED_REQUEST"
  · subst h13; decide
  by_cases h14 : c = "INTERNAL_SERVER_ERROR"
  · subst h14; decide
  by_cases h15 : c = "NOT_IMPLEMENTED"
  · subst h15; decide
  simp [statusMap, jsGet, claimStatusTable,
        h1, h2, h3, h4, h5, h6, h7, h8, h9, h10, h11, h12, h13, h14, h15,
        Ne.symm h1, Ne.symm h2, Ne.symm h3, Ne.symm h4, Ne.symm h5,
        Ne.symm h6, Ne.symm h7, Ne.symm h8, Ne.symm h9, Ne.symm h10,
        Ne.symm h11, Ne.symm h12, Ne.symm h13, Ne.symm h14, Ne.symm h15]

/-- C4: For every thrown error, the response status is the fixed
code→status table applied to the effective code (the error's `code`, or
`INTERNAL_SERVER_ERROR` when missing/empty; unrecognized codes fall to
500), the body is `{message, code, data}` with `data` the truthy cause
or `null`, and the headers declare JSON. -/
theorem errorToResponse_spec (e : ErrLike) :
    (errorToResponse e).status = claimStatusTable (effectiveCode e)
    ∧ (errorToResponse e).headers = [("Content-Type", "application/json")]
    ∧ (errorToResponse e).body =
        Js.obj [("message", Js.str e.message),
                ("code", Js.str (effectiveCode e)),
                ("data", match e.cause with
                         | some v => if v.truthy then v else Js.null
                         | none => Js.null)]
    ∧ (e.code = none → (errorToResponse e).status = 500)
    ∧ (∀ c, e.code = some c → c ∉ objKeys statusMap → (errorToResponse e).status = 500) := by
  refine ⟨?_, rfl, rfl, ?_, ?_⟩
  · exact statusMap_getD (effectiveCode e)
  · intro hc
    show (jsGet statusMap (effectiveCode e)).getD 500 = 500
    simp [effectiveCode, jsOrStr, hc]
    decide
  · intro c hc hmem
    show (jsGet statusMap (effectiveCode e)).getD 500 = 500
    have heff : effectiveCode e = if c = "" then "INTERNAL_SERVER_ERROR" else c := by
      simp [effectiveCode, jsOrStr, hc]
    by_cases hce : c = ""
    · rw [heff, if_pos hce]; decide
    · rw [heff, if_neg hce]
      rw [jsGet_eq_none_of_not_mem hmem]
      rfl

/-- Witness for C4: an error with code `CONFLICT` maps to status 409
with the code echoed in the body. -/
theorem errorToResponse_spec_witness :
    (errorToResponse { code := some "CONFLICT", message := "boom", cause := none }).status
      = 409 :=
  (errorToResponse_spec _).1.trans (by decide)


/-! ## C3: request-body subtraction of path parameters -/
theorem deleteKeys_eq_residual (props : List (String × Js)) :
    ∀ pathParams : List String,
      deleteKeys props pathParams = residualProps props pathParams := by
  intro pathParams
  induction pathParams generalizing props with
  | nil =>
    simp only [deleteKeys, List.foldl_nil, residualProps]
    rw [List.filter_eq_self.2]
    intro p _
    simp
  | cons q qs ih =>
    show deleteKeys (props.filter fun p => ¬ p.1 = q) qs = _
    rw [ih]
    simp only [residualProps, List.filter_filter]
    apply List.filter_congr
    intro p _
    by_cases h1 : p.1 = q
    · simp [h1]
    · by_cases h2 : p.1 ∈ qs <;> simp [h1, h2]

theorem contains_filter_eq_residual (required pathParams : List String) :
    required.filter (fun r => ¬ pathParams.contains r) =
      residualRequired required pathParams := by
  unfold residualRequired
  apply List.filter_congr
  intro r _
  simp [List.elem_iff]

/-- C3: For every non-GET operation whose input schema is an object
schema with properties, the generated request body carries exactly the
residual schema (path-parameter names deleted from `properties` and
filtered out of `required`, an empty residual `required` being
dropped), no body at all being emitted when no properties remain; and
every path-template name yields one required `path` parameter. -/
theorem buildRequestBody_residual (schemaObj : SchemaObject) (pathParams : List String)
    (ct : Option String) (props : List (String × Js)) (httpMethod : String)
    (hm : httpMethod ≠ "GET")
    (ht : schemaObj.type = some "object")
    (hp : schemaObj.properties = some props) :
    operationRequestBody httpMethod (some schemaObj) pathParams ct =
      (if (residualProps props pathParams).length = 0 then none
       else some
         { required := true
           contentType := ct.getD "application/json"
           schema :=
             { schemaObj with
               properties := some (residualProps props pathParams)
               required :=
                 if residualRequired (schemaObj.required.getD []) pathParams = []
                 then none
                 else some (residualRequired (schemaObj.required.getD []) pathParams) } })
    ∧ (buildPathParameters pathParams (some schemaObj)).map (fun p => p.name) = pathParams
    ∧ ∀ p ∈ buildPathParameters pathParams (some schemaObj),
        p.required = true ∧ p.location = "path" := by
  refine ⟨?_, ?_, ?_⟩
  · unfold operationRequestBody
    rw [if_neg hm]
    simp only [buildRequestBody]
    rw [if_pos ⟨ht, by rw [hp]; rfl⟩, hp]
    simp only [Option.getD_some]
    rw [deleteKeys_eq_residual, contains_filter_eq_residual]
    by_cases hres : (residualProps props pathParams).length = 0
    · rw [if_pos hres, if_pos hres]
    · rw [if_neg hres, if_neg hres]
      by_cases hreq : residualRequired (schemaObj.required.getD []) pathParams = []
      · rw [if_neg (by simp [hreq]), if_pos hreq]
      · rw [if_pos (List.length_pos.2 hreq), if_neg hreq]
  · unfold buildPathParameters
    induction pathParams with
    | nil => rfl
    | cons a l ih =>
      simp only [List.map_cons]
      exact congrArg (List.cons a) (by simpa using ih)
  · intro p hp2
    unfold buildPathParameters at hp2
    obtain ⟨param, -, hpeq⟩ := List.mem_map.1 hp2
    rw [← hpeq]
    exact ⟨rfl, rfl⟩

/-- Witness for C3: the PUT example with path parameter `id` and input
properties `{id, name}`, required `[id, name]`. -/
theorem buildRequestBody_residual_witness :
    ("PUT" ≠ "GET")
    ∧ operationRequestBody "PUT"
        (some { type := some "object"
                properties := some [("id", Js.obj [("type", Js.str "number")]),
                                    ("name", Js.obj [("type", Js.str "string")])]
                required := some ["id", "name"] })
        ["id"] none =
        some { required := true
               contentType := "application/json"
               schema :=
                 { type := some "object"
                   properties := some [("name", Js.obj [("type", Js.str "string")])]
                   required := some ["name"] } }
    ∧ (buildPathParameters ["id"]
        (some { type := some "object"
                properties := some [("id", Js.obj [("type", Js.str "number")]),
                                    ("name", Js.obj [("type", Js.str "string")])]
                required := some ["id", "name"] })).map (fun p => p.name) = ["id"] := by
  refine ⟨by decide, ?_, ?_⟩
  · exact (buildRequestBody_residual
      { type := some "object"
        properties := some [("id", Js.obj [("type", Js.str "number")]),
                            ("name", Js.obj [("type", Js.str "string")])]
        required := some ["id", "name"] } ["id"] none
      [("id", Js.obj [("type", Js.str "number")]),
       ("name", Js.obj [("type", Js.str "string")])] "PUT"
      (by decide) rfl rfl).1.trans (by rfl)
  · exact (buildRequestBody_residual
      { type := some "object"
        properties := some [("id", Js.obj [("type", Js.str "number")]),
                            ("name", Js.obj [("type", Js.str "string")])]
        required := some ["id", "name"] } ["id"] none
      [("id", Js.obj [("type", Js.str "number")]),
       ("name", Js.obj [("type", Js.str "string")])] "PUT"
      (by decide) rfl rfl).2.1

/-! ## C7: flattening the procedure tree -/

theorem objKeys_spreadMerge {v : Type} :
    ∀ (b a : List (String × v)) (k : String),
      k ∈ objKeys (spreadMerge a b) ↔ k ∈ objKeys a ∨ k ∈ objKeys b := by
  intro b
  induction b with
  | nil => intro a k; simp [spreadMerge, objKeys]
  | cons p bs ih =>
    intro a k
    rw [spreadMerge_cons, ih]
    simp only [objKeys_objSet, objKeys, List.mem_cons]
    tauto

theorem nodupKeys_spreadMerge {v : Type} :
    ∀ (b a : List (String × v)), NodupKeys a → NodupKeys (spreadMerge a b) := by
  intro b
  induction b with
  | nil => intro a h; exact h
  | cons p bs ih =>
    intro a h
    rw [spreadMerge_cons]
    exact ih _ (nodupKeys_objSet _ _ h)

/-- The key set of the flattening is exactly the set of dotted leaf
paths (plus whatever the threaded accumulator already held). -/
theorem collectChildren_keys :
    ∀ (cs : List (String × RouterNode)) (pre : String)
      (acc : List (String × ProcedureDefM)) (k : String),
      k ∈ objKeys (collectChildren cs pre acc) ↔
        k ∈ objKeys acc ∨ k ∈ leafPathsChildren cs pre := by
  intro cs pre acc
  induction cs, pre, acc using collectChildren.induct with
  | case1 pre acc =>
    intro k
    simp [collectChildren, leafPathsChildren]
  | case2 name p rest pre acc ih =>
    intro k
    rw [collectChildren]
    rw [ih k]
    simp only [objKeys_objSet, leafPathsChildren, List.mem_cons]
    tauto
  | case3 name cs rest pre acc ih1 ih2 =>
    intro k
    rw [collectChildren]
    rw [ih2 k]
    rw [objKeys_spreadMerge]
    rw [show leafPathsChildren ((name, RouterNode.node cs) :: rest) pre =
          leafPathsChildren cs (joinPath pre name) ++ leafPathsChildren rest pre
        from by rw [leafPathsChildren]]
    rw [List.mem_append]
    have h1 := ih1 k
    simp only [objKeys] at h1
    simp only [List.not_mem_nil, false_or] at h1
    rw [h1]
    tauto

/-- The flattening preserves distinctness of keys. -/
theorem collectChildren_nodup :
    ∀ (cs : List (String × RouterNode)) (pre : String)
      (acc : List (String × ProcedureDefM)),
      NodupKeys acc → NodupKeys (collectChildren cs pre acc) := by
  intro cs pre acc
  induction cs, pre, acc using collectChildren.induct with
  | case1 pre acc => intro h; rw [collectChildren]; exact h
  | case2 name p rest pre acc ih =>
    intro h
    rw [collectChildren]
    exact ih (nodupKeys_objSet _ _ h)
  | case3 name cs rest pre acc ih1 ih2 =>
    intro h
    rw [collectChildren]
    exact ih2 (nodupKeys_spreadMerge _ _ h)

/-- When the dotted leaf paths are pairwise distinct and disjoint from
the accumulator's keys, the flattening has exactly one entry per leaf. -/
theorem collectChildren_length :
    ∀ (cs : List (String × RouterNode)) (pre : String)
      (acc : List (String × ProcedureDefM)),
      (leafPathsChildren cs pre).Nodup → NodupKeys acc →
      (∀ k ∈ leafPathsChildren cs pre, k ∉ objKeys acc) →
      (collectChildren cs pre acc).length = acc.length + countLeaves cs := by
  intro cs pre acc
  induction cs, pre, acc using collectChildren.induct with
  | case1 pre acc =>
    intro _ _ _
    rw [collectChildren, countLeaves]
    omega
  | case2 name p rest pre acc ih =>
    intro hnd hacc hdisj
    rw [show leafPathsChildren ((name, RouterNode.leaf p) :: rest) pre =
          joinPath pre name :: leafPathsChildren rest pre
        from by rw [leafPathsChildren]] at hnd hdisj
    rw [List.nodup_cons] at hnd
    rw [collectChildren]
    rw [ih hnd.2 (nodupKeys_objSet _ _ hacc) ?_]
    · rw [length_objSet_not_mem _ (hdisj _ (List.mem_cons_self _ _)),
          countLeaves]
      omega
    · intro k hk
      rw [objKeys_objSet]
      push_neg
      exact ⟨fun hx => hnd.1 (hx ▸ hk), hdisj k (List.mem_cons_of_mem _ hk)⟩
  | case3 name cs rest pre acc ih1 ih2 =>
    intro hnd hacc hdisj
    rw [show leafPathsChildren ((name, RouterNode.node cs) :: rest) pre =
          leafPathsChildren cs (joinPath pre name) ++ leafPathsChildren rest pre
        from by rw [leafPathsChildren]] at hnd hdisj
    rw [List.nodup_append] at hnd
    obtain ⟨hnd1, hnd2, hdj⟩ := hnd
    have hkeys_inner : ∀ k, k ∈ objKeys (collectChildren cs (joinPath pre name) []) ↔
        k ∈ leafPathsChildren cs (joinPath pre name) := by
      intro k
      rw [collectChildren_keys]
      simp [objKeys]
    have hnd_inner : NodupKeys (collectChildren cs (joinPath pre name) []) :=
      collectChildren_nodup _ _ _ (by simp [NodupKeys, objKeys])
    have hlen_inner : (collectChildren cs (joinPath pre name) []).length = countLeaves cs := by
      have := ih1 hnd1 (by simp [NodupKeys, objKeys]) (by simp [objKeys])
      simpa using this
    rw [collectChildren]
    rw [ih2 hnd2 (nodupKeys_spreadMerge _ _ hacc) ?_]
    · rw [spreadMerge_eq_append _ _ hnd_inner ?_]
      · rw [List.length_append, hlen_inner, countLeaves]
        omega
      · intro k hk
        exact hdisj k (List.mem_append_left _ ((hkeys_inner k).1 hk))
    · intro k hk
      rw [objKeys_spreadMerge]
      push_neg
      refine ⟨hdisj k (List.mem_append_right _ hk), ?_⟩
      intro hx
      exact hdj ((hkeys_inner k).1 hx) hk

/-- C7 (counterexample): The claim fails as stated: in the tree
`{"a.b": leaf, "a": {"b": leaf}}` both leaves flatten to the dotted
path `a.b`, the `Map.set` overwrites, and the mapping has 1 entry while
the tree has 2 leaf nodes. -/
theorem collectProcedures_size_counterexample :
    (collectProcedures (RouterNode.node
        [("a.b", RouterNode.leaf { ptype := "query" }),
         ("a", RouterNode.node [("b", RouterNode.leaf { ptype := "query" })])])).length
      ≠ countLeaves
        [("a.b", RouterNode.leaf { ptype := "query" }),
         ("a", RouterNode.node [("b", RouterNode.leaf { ptype := "query" })])] := by
  rw [collectProcedures]
  simp [collectChildren, countLeaves, joinPath, objSet, spreadMerge]

/-- C7 (amended): For every procedure tree, the key set of the
flattened mapping equals the set of dotted leaf paths; and whenever
those dotted paths are pairwise distinct (in particular whenever names
contain no `'.'`), the size of the mapping equals the number of leaf
(non-router) nodes. -/
theorem collectProcedures_flatten (cs : List (String × RouterNode)) :
    (∀ k, k ∈ objKeys (collectProcedures (RouterNode.node cs)) ↔
        k ∈ leafPathsChildren cs "")
    ∧ ((leafPathsChildren cs "").Nodup →
        (collectProcedures (RouterNode.node cs)).length = countLeaves cs) := by
  constructor
  · intro k
    rw [collectProcedures, collectChildren_keys]
    simp [objKeys]
  · intro hnd
    rw [collectProcedures]
    have := collectChildren_length cs "" [] hnd (by simp [NodupKeys, objKeys])
      (by simp [objKeys])
    simpa using this

/-- Witness for C7 at a small concrete tree with distinct dotted paths. -/
theorem collectProcedures_flatten_witness :
    (leafPathsChildren
        [("users", RouterNode.node
            [("get", RouterNode.leaf { ptype := "query" }),
             ("create", RouterNode.leaf { ptype := "mutation" })]),
         ("health", RouterNode.leaf { ptype := "query" })] "").Nodup
    ∧ (collectProcedures (RouterNode.node
        [("users", RouterNode.node
            [("get", RouterNode.leaf { ptype := "query" }),
             ("create", RouterNode.leaf { ptype := "mutation" })]),
         ("health", RouterNode.leaf { ptype := "query" })])).length
      = countLeaves
        [("users", RouterNode.node
            [("get", RouterNode.leaf { ptype := "query" }),
             ("create", RouterNode.leaf { ptype := "mutation" })]),
         ("health", RouterNode.leaf { ptype := "query" })] := by
  have hnd : (leafPathsChildren
      [("users", RouterNode.node
          [("get", RouterNode.leaf { ptype := "query" }),
           ("create", RouterNode.leaf { ptype := "mutation" })]),
       ("health", RouterNode.leaf { ptype := "query" })] "").Nodup := by
    simp [leafPathsChildren, joinPath]
  exact ⟨hnd,
    (collectProcedures_flatten
      [("users", RouterNode.node
          [("get", RouterNode.leaf { ptype := "query" }),
           ("create", RouterNode.leaf { ptype := "mutation" })]),
       ("health", RouterNode.leaf { ptype := "query" })]).2 hnd⟩

/-! ## C5: unmatched requests -/
/-- C5: For every request whose method and path match no entry of
the route table, the handler returns status 404 with a structured body
whose code is `NOT_FOUND` and whose message names the unmatched method
and path, and the response is independent of the context factory, the
procedures and the error hook (none of them is invoked). -/
theorem handler_not_found {Ctx : Type} (routes : List RouteEntry) (orc : Oracles Ctx)
    (req : OpenApiRequest) (pn : String) (q : List (String × String))
    (h1 : parseUrlE req.url = .ok (pn, q))
    (h2 : matchRouteE routes req.method (stripTrailingSlash pn) = .ok none) :
    handlerCore routes orc req =
      .ok { status := 404
            headers := [("Content-Type", "application/json")]
            body := Js.obj
              [("message", Js.str ("No route found for " ++ req.method ++ " "
                  ++ stripTrailingSlash pn)),
               ("code", Js.str "NOT_FOUND")] }
    ∧ ∀ (Ctx' : Type) (orc' : Oracles Ctx'),
        handlerCore routes orc' req = handlerCore routes orc req := by
  have hcore : ∀ (Ctx' : Type) (orc' : Oracles Ctx'),
      handlerCore routes orc' req =
        .ok (notFoundResponse req.method (stripTrailingSlash pn)) := by
    intro Ctx' orc'
    simp [handlerCore, preMatch, h1, h2]
  refine ⟨?_, ?_⟩
  · rw [hcore Ctx orc]
    rfl
  · intro Ctx' orc'
    rw [hcore Ctx' orc', hcore Ctx orc]

/-- Witness for C5: `DELETE /nonexistent` against a table holding only
`GET /users` yields the 404 body, for the trivial oracle set. -/
theorem handler_not_found_witness :
    parseUrlE "/nonexistent" = .ok ("/nonexistent", [])
    ∧ matchRouteE [exRouteUsers] "DELETE" (stripTrailingSlash "/nonexistent") = .ok none
    ∧ handlerCore [exRouteUsers] exOrcUnit
        { method := "DELETE", url := "/nonexistent" } =
      .ok { status := 404
            headers := [("Content-Type", "application/json")]
            body := Js.obj
              [("message", Js.str "No route found for DELETE /nonexistent"),
               ("code", Js.str "NOT_FOUND")] } := by
  refine ⟨rfl, rfl, ?_⟩
  exact (handler_not_found [exRouteUsers] exOrcUnit
    { method := "DELETE", url := "/nonexistent" } "/nonexistent" [] rfl rfl).1

/-! ## C2: structured input for GET requests -/

theorem parseQueryPairs_nodup :
    ∀ (pairs : List (List Char)) (acc q : List (String × String)),
      NodupKeys acc → parseQueryPairs pairs acc = .ok q → NodupKeys q := by
  intro pairs
  induction pairs with
  | nil =>
    intro acc q h hp
    simp only [parseQueryPairs] at hp
    cases hp
    exact h
  | cons pair rest ih =>
    intro acc q h hp
    simp only [parseQueryPairs] at hp
    by_cases hk : (splitAll '=' pair).headD [] = []
    · rw [if_pos hk] at hp
      exact ih _ _ h hp
    · rw [if_neg hk] at hp
      cases hd : decodeE ((splitAll '=' pair).headD []) with
      | error e => rw [hd] at hp; simp at hp
      | ok kd =>
        rw [hd] at hp
        cases hv : qValueE (splitAll '=' pair) with
        | error e => rw [hv] at hp; simp at hp
        | ok vd =>
          rw [hv] at hp
          exact ih _ _ (nodupKeys_objSet _ _ h) hp

theorem parseUrlE_nodup {url pn : String} {q : List (String × String)}
    (h : parseUrlE url = .ok (pn, q)) : NodupKeys q := by
  unfold parseUrlE at h
  split at h
  · next p heq =>
    simp only [Except.ok.injEq, Prod.mk.injEq] at h
    obtain ⟨-, h2⟩ := h
    subst h2
    simp [NodupKeys, objKeys]
  · next p qs heq =>
    split at h
    · exact absurd h (by simp)
    · next q' heq2 =>
      simp only [Except.ok.injEq, Prod.mk.injEq] at h
      obtain ⟨-, h2⟩ := h
      subst h2
      exact parseQueryPairs_nodup _ _ _ (by simp [NodupKeys, objKeys]) heq2

theorem objKeys_strObj (m : List (String × String)) :
    objKeys (strObj m) = objKeys m := by
  induction m with
  | nil => rfl
  | cons p rest ih => simp [strObj, objKeys] at ih ⊢; exact ih

theorem nodupKeys_strObj {m : List (String × String)} (h : NodupKeys m) :
    NodupKeys (strObj m) := by
  unfold NodupKeys
  rw [objKeys_strObj]
  exact h

theorem jsGet_strObj (m : List (String × String)) (k : String) :
    jsGet (strObj m) k = (jsGet m k).map Js.str := by
  induction m with
  | nil => simp [strObj, jsGet]
  | cons p rest ih =>
    show jsGet ((p.1, Js.str p.2) :: strObj rest) k = _
    by_cases hp : p.1 = k <;> simp [jsGet, hp, ih]

/-- C2: For every GET request, the structured input handed to the
procedure is the object literal `{...query, ...req.query,
...routeParams}`: the merge, in increasing precedence, of the query
parameters parsed from the URL, the pre-parsed request query object,
and the route path parameters — on any key collision the
path-parameter value wins, then the request query object, then the
parsed query string. -/
theorem buildInput_get (req : OpenApiRequest) (routeParams : List (String × String))
    (pn : String) (q : List (String × String))
    (hm : jsToUpper req.method = "GET")
    (hu : parseUrlE req.url = .ok (pn, q))
    (hrq : NodupKeys (req.query.getD []))
    (hrp : NodupKeys routeParams) :
    buildInputE req routeParams =
      .ok (Js.obj (objLit [strObj q, req.query.getD [], strObj routeParams]))
    ∧ ∀ k, jsGet (objLit [strObj q, req.query.getD [], strObj routeParams]) k =
        optOr ((jsGet routeParams k).map Js.str)
          (optOr (jsGet (req.query.getD []) k) ((jsGet q k).map Js.str)) := by
  have hqnd : NodupKeys q := parseUrlE_nodup hu
  constructor
  · simp [buildInputE, hu, hm]
  · intro k
    have hobj : objLit [strObj q, req.query.getD [], strObj routeParams] =
        spreadMerge (spreadMerge (spreadMerge [] (strObj q)) (req.query.getD []))
          (strObj routeParams) := by
      simp [objLit]
    rw [hobj]
    rw [jsGet_spreadMerge _ _ _ (nodupKeys_strObj hrp)]
    rw [jsGet_spreadMerge _ _ _ hrq]
    rw [spreadMerge_nil (nodupKeys_strObj hqnd)]
    rw [jsGet_strObj, jsGet_strObj]

/-- Witness for C2: `GET /users/42?verbose=true` against route
`GET /users/{userId}` yields the input `{verbose: "true", userId: "42"}`. -/
theorem buildInput_get_witness :
    matchRouteE
      [{ method := "GET"
         toks := [.lit '/', .lit 'u', .lit 's', .lit 'e', .lit 'r', .lit 's',
                  .lit '/', .capture]
         params := ["userId"]
         procedurePath := "users.get"
         procType := "query" }] "GET" "/users/42" =
      .ok (some { procedurePath := "users.get", procType := "query",
                  params := [("userId", "42")] })
    ∧ jsToUpper "GET" = "GET"
    ∧ buildInputE { method := "GET", url := "/users/42?verbose=true" }
        [("userId", "42")] =
      .ok (Js.obj [("verbose", Js.str "true"), ("userId", Js.str "42")]) := by
  refine ⟨rfl, rfl, ?_⟩
  exact (buildInput_get { method := "GET", url := "/users/42?verbose=true" }
    [("userId", "42")] "/users/42" [("verbose", "true")] rfl rfl
    (by decide) (by decide)).1.trans (by rfl)

/-! ## C10: percent-decoding of captured path parameters -/
theorem mem_objSet {v : Type} :
    ∀ {m : List (String × v)} {k : String} {x : v} {kv : String × v},
      kv ∈ objSet m k x → kv ∈ m ∨ kv = (k, x) := by
  intro m
  induction m with
  | nil => intro k x kv h; simp [objSet] at h; exact Or.inr h
  | cons p rest ih =>
    intro k x kv h
    by_cases hp : p.1 = k
    · rw [objSet, if_pos hp] at h
      rcases List.mem_cons.1 h with h | h
      · exact Or.inr h
      · exact Or.inl (List.mem_cons_of_mem _ h)
    · rw [objSet, if_neg hp] at h
      rcases List.mem_cons.1 h with h | h
      · exact Or.inl (h ▸ List.mem_cons_self _ _)
      · rcases ih h with h | h
        · exact Or.inl (List.mem_cons_of_mem _ h)
        · exact Or.inr h

theorem mem_foldl_objSet {v : Type} :
    ∀ (pairs : List (String × v)) (acc : List (String × v)) (kv : String × v),
      kv ∈ pairs.foldl (fun a p => objSet a p.1 p.2) acc → kv ∈ acc ∨ kv ∈ pairs := by
  intro pairs
  induction pairs with
  | nil => intro acc kv h; exact Or.inl h
  | cons pr rest ih =>
    intro acc kv h
    rw [List.foldl_cons] at h
    rcases ih _ _ h with h | h
    · rcases mem_objSet h with h | h
      · exact Or.inl h
      · exact Or.inr (h ▸ List.mem_cons_self _ _)
    · exact Or.inr (List.mem_cons_of_mem _ h)

theorem decodeAll_mem :
    ∀ {caps : List (List Char)} {ds : List String}, decodeAll caps = .ok ds →
      ∀ d ∈ ds, ∃ cap ∈ caps, ∃ dl, decodeE cap = .ok dl ∧ d = String.mk dl := by
  intro caps
  induction caps with
  | nil =>
    intro ds h d hd
    simp only [decodeAll] at h
    cases h
    simp at hd
  | cons c cs ih =>
    intro ds h d hd
    simp only [decodeAll] at h
    cases hc : decodeE c with
    | error e => rw [hc] at h; simp at h
    | ok dl =>
      rw [hc] at h
      cases hcs : decodeAll cs with
      | error e => rw [hcs] at h; simp at h
      | ok ds' =>
        rw [hcs] at h
        simp only [Except.ok.injEq] at h
        subst h
        rcases List.mem_cons.1 hd with hd | hd
        · exact ⟨c, List.mem_cons_self _ _, dl, hc, hd⟩
        · obtain ⟨cap, hcap, dl', h1, h2⟩ := ih hcs d hd
          exact ⟨cap, List.mem_cons_of_mem _ hcap, dl', h1, h2⟩

theorem decodeCaps_eq_zip :
    ∀ (names : List String) (caps : List (List Char))
      (acc : List (String × String)) (ds : List String),
      names.length = caps.length → decodeAll caps = .ok ds →
      decodeCaps names caps acc =
        .ok ((names.zip ds).foldl (fun a p => objSet a p.1 p.2) acc) := by
  intro names
  induction names with
  | nil =>
    intro caps acc ds hlen hd
    cases caps with
    | nil =>
      simp only [decodeAll] at hd
      cases hd
      simp [decodeCaps]
    | cons c cs => simp at hlen
  | cons n ns ih =>
    intro caps acc ds hlen hd
    cases caps with
    | nil => simp at hlen
    | cons c cs =>
      simp only [decodeAll] at hd
      cases hc : decodeE c with
      | error e => rw [hc] at hd; simp at hd
      | ok dl =>
        rw [hc] at hd
        cases hcs : decodeAll cs with
        | error e => rw [hcs] at hd; simp at hd
        | ok ds' =>
          rw [hcs] at hd
          simp only [Except.ok.injEq] at hd
          subst hd
          simp only [decodeCaps, hc]
          rw [ih cs (objSet acc n (String.mk dl)) ds'
              (by simpa using hlen) hcs]
          rfl

/-- C10: For every matched route, the parameters handed onward are
built by percent-decoding each captured text (in capture order,
assigned under the route's parameter names), so the procedure never
sees a raw percent-encoded segment: every parameter value in the match
result is `decodeURIComponent` of one of the captured texts. -/
theorem matchRoute_percent_decodes (r : RouteEntry) (method pathname : String)
    (caps : List (List Char)) (ds : List String)
    (hmeth : r.method = jsToUpper method)
    (ht : matchToks r.toks pathname.data = some caps)
    (hlen : r.params.length = caps.length)
    (hd : decodeAll caps = .ok ds) :
    matchRouteE [r] method pathname =
      .ok (some { procedurePath := r.procedurePath, procType := r.procType,
                  params := (r.params.zip ds).foldl (fun a p => objSet a p.1 p.2) [] })
    ∧ ∀ kv ∈ (r.params.zip ds).foldl (fun a p => objSet a p.1 p.2) [],
        ∃ cap ∈ caps, ∃ dl, decodeE cap = .ok dl ∧ kv.2 = String.mk dl := by
  constructor
  · simp only [matchRouteE, if_pos hmeth, ht]
    rw [decodeCaps_eq_zip _ _ _ _ hlen hd]
  · intro kv hkv
    rcases mem_foldl_objSet _ _ _ hkv with h | h
    · simp at h
    · obtain ⟨hn, hdmem⟩ := List.of_mem_zip h
      obtain ⟨cap, hcap, dl, h1, h2⟩ := decodeAll_mem hd kv.2 hdmem
      exact ⟨cap, hcap, dl, h1, h2⟩

/-- Witness for C10: the captured segment `a%20b` of
`GET /files/a%20b` against `GET /files/{name}` reaches the input as
`"a b"`. -/
theorem matchRoute_percent_decodes_witness :
    matchToks [.lit '/', .lit 'f', .lit 'i', .lit 'l', .lit 'e', .lit 's',
               .lit '/', .capture] "/files/a%20b".data =
      some [['a', '%', '2', '0', 'b']]
    ∧ decodeAll [['a', '%', '2', '0', 'b']] = .ok ["a b"]
    ∧ matchRouteE
        [{ method := "GET"
           toks := [.lit '/', .lit 'f', .lit 'i', .lit 'l', .lit 'e', .lit 's',
                    .lit '/', .capture]
           params := ["name"]
           procedurePath := "files.get"
           procType := "query" }] "GET" "/files/a%20b" =
      .ok (some { procedurePath := "files.get", procType := "query",
                  params := [("name", "a b")] }) := by
  refine ⟨rfl, rfl, ?_⟩
  exact (matchRoute_percent_decodes
    { method := "GET"
      toks := [.lit '/', .lit 'f', .lit 'i', .lit 'l', .lit 'e', .lit 's',
               .lit '/', .capture]
      params := ["name"]
      procedurePath := "files.get"
      procType := "query" } "GET" "/files/a%20b"
    [['a', '%', '2', '0', 'b']] ["a b"] rfl rfl rfl rfl).1.trans (by rfl)

/-! ## C1: the handler boundary -/
/-- C1 (amended): Whenever the pre-`try` phase does not throw — the
URL's query string and the matched route's captured path parameters all
percent-decode successfully — and the `onError` hook does not itself
throw, the handler returns a response object, whatever the context
factory and the procedure do (including throwing). -/
theorem handler_total {Ctx : Type} (router : RouterNode) (orc : Oracles Ctx)
    (req : OpenApiRequest)
    (h1 : (preMatch (buildRouteTable router) req).isOk = true)
    (h2 : onErrorQuiet orc) :
    (createOpenApiHandler router orc req).isOk = true := by
  have hcatch : ∀ e pth c, (runCatch orc e pth req c).isOk = true := by
    intro e pth c
    unfold runCatch
    cases hoe : orc.onError with
    | none => rfl
    | some f =>
      show (match f e pth req c with
            | some e' => Except.error e'
            | none => Except.ok (errorToResponse e)).isOk = true
      rw [h2 f hoe e pth req c]
      rfl
  unfold createOpenApiHandler handlerCore
  split
  · next e heq =>
    rw [heq] at h1
    exact absurd h1 (by simp [Except.isOk, Except.toBool])
  · rfl
  · next p m heq =>
    show (dispatchMatched orc req m).isOk = true
    unfold dispatchMatched
    split
    · exact hcatch _ _ _
    · split
      · exact hcatch _ _ _
      · split
        · exact hcatch _ _ _
        · rfl

/-- C1 (counterexample): The claim fails as stated: both escapes are
exhibited.  A malformed percent-encoding in the query string
(`GET /a?%`) throws a `URIError` in `parseUrl`, which runs before the
`try` block, so the returned promise rejects even though the context
factory, procedure and hook are perfectly well behaved; and when a
procedure fails, an `onError` hook that itself throws escapes the
`catch` block. -/
theorem handler_can_throw_counterexample :
    createOpenApiHandler (RouterNode.node []) exOrcUnit
      { method := "GET", url := "/a?%" } = .error uriError
    ∧ handlerCore [{ method := "GET", toks := [.lit '/'], params := [],
                     procedurePath := "r", procType := "query" }]
        { createContext := fun _ _ => .ok ()
          invoke := fun _ _ _ => .error { message := "proc failed" }
          onError := some (fun _ _ _ _ => some { message := "hook threw" }) }
        { method := "GET", url := "/" } =
      .error { message := "hook threw" } := by
  constructor
  · have hbt : buildRouteTable (RouterNode.node []) = [] := by
      rw [buildRouteTable]
      rw [buildRoutesChildren]
    show handlerCore (buildRouteTable (RouterNode.node [])) exOrcUnit
      { method := "GET", url := "/a?%" } = .error uriError
    rw [hbt]
    rfl
  · rfl

/-- Witness for C1: an empty router with a clean URL satisfies both
hypotheses, and the handler indeed produces a response object. -/
theorem handler_total_witness :
    (preMatch (buildRouteTable (RouterNode.node []))
      { method := "GET", url := "/ping" }).isOk = true
    ∧ onErrorQuiet exOrcUnit
    ∧ (createOpenApiHandler (RouterNode.node []) exOrcUnit
        { method := "GET", url := "/ping" }).isOk = true := by
  have hbt : buildRouteTable (RouterNode.node []) = [] := by
    rw [buildRouteTable]
    rw [buildRoutesChildren]
  have hquiet : onErrorQuiet exOrcUnit := by
    intro f hf
    exact absurd hf (by simp [exOrcUnit])
  refine ⟨?_, hquiet, ?_⟩
  · rw [hbt]; rfl
  · exact handler_total (RouterNode.node []) exOrcUnit
      { method := "GET", url := "/ping" } (by rw [hbt]; rfl) hquiet

/-! ## C8: trailing-slash tolerance -/

theorem splitAtQ_no_q : ∀ {l : List Char}, '?' ∉ l → splitAtQ l = (l, none) := by
  intro l
  induction l with
  | nil => intro _; rfl
  | cons c rest ih =>
    intro h
    have hc : c ≠ '?' := fun hx => h (hx ▸ List.mem_cons_self c rest)
    have hrest : '?' ∉ rest := fun hx => h (List.mem_cons_of_mem c hx)
    simp [splitAtQ, hc, ih hrest]

theorem splitAtQ_before_q :
    ∀ {a : List Char} (t : List Char), '?' ∉ a → splitAtQ (a ++ '?' :: t) = (a, some t) := by
  intro a
  induction a with
  | nil => intro t _; simp [splitAtQ]
  | cons c rest ih =>
    intro t h
    have hc : c ≠ '?' := fun hx => h (hx ▸ List.mem_cons_self c rest)
    have hrest : '?' ∉ rest := fun hx => h (List.mem_cons_of_mem c hx)
    simp [splitAtQ, hc, ih t hrest]

/-- Exactly one trailing slash is removed. -/
theorem stripTrailingSlash_append_slash {p : List Char} (hne : p ≠ []) :
    stripTrailingSlash ⟨p ++ ['/']⟩ = ⟨p⟩ := by
  have hlen : p.length ≥ 1 := by
    cases p with
    | nil => exact absurd rfl hne
    | cons c rest => simp
  unfold stripTrailingSlash
  rw [if_pos ⟨by simp; omega, by simp⟩]
  simp

/-- A pathname that does not end in a slash is left unchanged. -/
theorem stripTrailingSlash_no_slash {p : List Char} (hsl : p.getLast? ≠ some '/') :
    stripTrailingSlash ⟨p⟩ = ⟨p⟩ := by
  unfold stripTrailingSlash
  rw [if_neg ?_]
  intro hx
  exact hsl hx.2

/-- The root path is exempt from normalization. -/
theorem stripTrailingSlash_root : stripTrailingSlash "/" = "/" := by
  rfl

theorem runCatch_same {Ctx : Type} (orc : Oracles Ctx) (e : ErrLike) (pth : String)
    (req1 req2 : OpenApiRequest) (c : Option Ctx)
    (h : ∀ f, orc.onError = some f → f e pth req1 c = f e pth req2 c) :
    runCatch orc e pth req1 c = runCatch orc e pth req2 c := by
  unfold runCatch
  cases hoe : orc.onError with
  | none => rfl
  | some f =>
    show (match f e pth req1 c with
          | some e' => Except.error e'
          | none => Except.ok (errorToResponse e)) =
         (match f e pth req2 c with
          | some e' => Except.error e'
          | none => Except.ok (errorToResponse e))
    rw [h f hoe]

theorem buildInputE_same {u1 u2 : String} (method : String)
    (headers : List (String × String)) (body : Js) (query : Option (List (String × Js)))
    (pn1 pn2 : String) (q : List (String × String)) (params : List (String × String))
    (hp1 : parseUrlE u1 = .ok (pn1, q)) (hp2 : parseUrlE u2 = .ok (pn2, q)) :
    buildInputE { method := method, url := u1, headers := headers,
                  body := body, query := query } params =
    buildInputE { method := method, url := u2, headers := headers,
                  body := body, query := query } params := by
  simp only [buildInputE, hp1, hp2]

/-- Two requests differing only in their URL, whose URLs parse to the
same query and to pathnames equal after trailing-slash normalization,
are matched identically and (when the context factory and error hook
cannot distinguish them) answered identically. -/
theorem handler_same {Ctx : Type} (routes : List RouteEntry) (orc : Oracles Ctx)
    (method : String) (headers : List (String × String)) (body : Js)
    (query : Option (List (String × Js)))
    (u1 u2 pn1 pn2 : String) (q : List (String × String))
    (hp1 : parseUrlE u1 = .ok (pn1, q)) (hp2 : parseUrlE u2 = .ok (pn2, q))
    (hstrip : stripTrailingSlash pn1 = stripTrailingSlash pn2)
    (horc1 : ∀ i, orc.createContext
        { method := method, url := u1, headers := headers, body := body, query := query } i =
      orc.createContext
        { method := method, url := u2, headers := headers, body := body, query := query } i)
    (horc2 : ∀ f, orc.onError = some f → ∀ e pth c,
        f e pth { method := method, url := u1, headers := headers,
                  body := body, query := query } c =
        f e pth { method := method, url := u2, headers := headers,
                  body := body, query := query } c) :
    preMatch routes
        { method := method, url := u1, headers := headers, body := body, query := query } =
      preMatch routes
        { method := method, url := u2, headers := headers, body := body, query := query }
    ∧ handlerCore routes orc
        { method := method, url := u1, headers := headers, body := body, query := query } =
      handlerCore routes orc
        { method := method, url := u2, headers := headers, body := body, query := query } := by
  have hpm : preMatch routes
      { method := method, url := u1, headers := headers, body := body, query := query } =
    preMatch routes
      { method := method, url := u2, headers := headers, body := body, query := query } := by
    simp only [preMatch, hp1, hp2, hstrip]
  refine ⟨hpm, ?_⟩
  unfold handlerCore
  rw [hpm]
  split
  · rfl
  · rfl
  · next p m heq =>
    show dispatchMatched orc
        { method := method, url := u1, headers := headers, body := body, query := query } m =
      dispatchMatched orc
        { method := method, url := u2, headers := headers, body := body, query := query } m
    unfold dispatchMatched
    rw [horc1 (m.procedurePath, m.procType),
        buildInputE_same method headers body query pn1 pn2 q m.params hp1 hp2]
    split
    · next e heq2 =>
      exact runCatch_same orc e m.procedurePath _ _ none
        (fun f hf => horc2 f hf e m.procedurePath none)
    · next ctx heq2 =>
      split
      · next e heq3 =>
        exact runCatch_same orc e m.procedurePath _ _ (some ctx)
          (fun f hf => horc2 f hf e m.procedurePath (some ctx))
      · next input heq3 =>
        split
        · next e heq4 =>
          exact runCatch_same orc e m.procedurePath _ _ (some ctx)
            (fun f hf => horc2 f hf e m.procedurePath (some ctx))
        · rfl

/-- C8: For every route table and every nonempty request path `p`
(origin-form paths begin with `'/'`, hence are nonempty) that does not
already end in a slash, the request with path `p ++ "/"` (same query
string) is treated identically to the request with path `p`: the same
matching outcome, and — whenever the context factory and error hook do
not distinguish the two raw requests — the same response.  Moreover
exactly one trailing slash is stripped, and the root path is exempt. -/
theorem trailing_slash_tolerance {Ctx : Type} (routes : List RouteEntry)
    (orc : Oracles Ctx) (method : String) (headers : List (String × String))
    (body : Js) (query : Option (List (String × Js))) (p rest : List Char)
    (hne : p ≠ [])
    (hsl : p.getLast? ≠ some '/')
    (hq : '?' ∉ p)
    (hrest : rest = [] ∨ ∃ t, rest = '?' :: t)
    (horc1 : ∀ i, orc.createContext
        { method := method, url := ⟨p ++ '/' :: rest⟩, headers := headers,
          body := body, query := query } i =
      orc.createContext
        { method := method, url := ⟨p ++ rest⟩, headers := headers,
          body := body, query := query } i)
    (horc2 : ∀ f, orc.onError = some f → ∀ e pth c,
        f e pth { method := method, url := ⟨p ++ '/' :: rest⟩, headers := headers,
                  body := body, query := query } c =
        f e pth { method := method, url := ⟨p ++ rest⟩, headers := headers,
                  body := body, query := query } c) :
    preMatch routes
        { method := method, url := ⟨p ++ '/' :: rest⟩, headers := headers,
          body := body, query := query } =
      preMatch routes
        { method := method, url := ⟨p ++ rest⟩, headers := headers,
          body := body, query := query }
    ∧ handlerCore routes orc
        { method := method, url := ⟨p ++ '/' :: rest⟩, headers := headers,
          body := body, query := query } =
      handlerCore routes orc
        { method := method, url := ⟨p ++ rest⟩, headers := headers,
          body := body, query := query }
    ∧ (∀ p' : List Char, p' ≠ [] → stripTrailingSlash ⟨p' ++ ['/']⟩ = ⟨p'⟩)
    ∧ stripTrailingSlash "/" = "/" := by
  have hq1 : '?' ∉ p ++ ['/'] := by
    intro hx
    rcases List.mem_append.1 hx with hx | hx
    · exact hq hx
    · simp at hx
  obtain ⟨qpart, hs1, hs2⟩ :
      ∃ x, splitAtQ (p ++ '/' :: rest) = (p ++ ['/'], x)
        ∧ splitAtQ (p ++ rest) = (p, x) := by
    rcases hrest with hr | ⟨t, hr⟩
    · subst hr
      refine ⟨none, ?_, ?_⟩
      · exact splitAtQ_no_q hq1
      · simpa using splitAtQ_no_q hq
    · subst hr
      refine ⟨some t, ?_, ?_⟩
      · have hshape : p ++ '/' :: '?' :: t = (p ++ ['/']) ++ '?' :: t := by simp
        rw [hshape]
        exact splitAtQ_before_q t hq1
      · exact splitAtQ_before_q t hq
  have hstrip : stripTrailingSlash ⟨p ++ ['/']⟩ = stripTrailingSlash ⟨p⟩ := by
    rw [stripTrailingSlash_append_slash hne, stripTrailingSlash_no_slash hsl]
  have hone : ∀ p' : List Char, p' ≠ [] → stripTrailingSlash ⟨p' ++ ['/']⟩ = ⟨p'⟩ :=
    fun p' hp' => stripTrailingSlash_append_slash hp'
  cases qpart with
  | none =>
    have hp1 : parseUrlE ⟨p ++ '/' :: rest⟩ = .ok (⟨p ++ ['/']⟩, []) := by
      simp [parseUrlE, hs1]
    have hp2 : parseUrlE ⟨p ++ rest⟩ = .ok (⟨p⟩, []) := by
      simp [parseUrlE, hs2]
    obtain ⟨h1, h2⟩ := handler_same routes orc method headers body query
      _ _ _ _ [] hp1 hp2 hstrip horc1 horc2
    exact ⟨h1, h2, hone, stripTrailingSlash_root⟩
  | some qs =>
    cases hqq : parseQueryPairs (splitAll '&' qs) [] with
    | error e =>
      have hp1 : parseUrlE ⟨p ++ '/' :: rest⟩ = .error e := by
        simp [parseUrlE, hs1, hqq]
      have hp2 : parseUrlE ⟨p ++ rest⟩ = .error e := by
        simp [parseUrlE, hs2, hqq]
      refine ⟨?_, ?_, hone, stripTrailingSlash_root⟩
      · simp [preMatch, hp1, hp2]
      · simp [handlerCore, preMatch, hp1, hp2]
    | ok q =>
      have hp1 : parseUrlE ⟨p ++ '/' :: rest⟩ = .ok (⟨p ++ ['/']⟩, q) := by
        simp [parseUrlE, hs1, hqq]
      have hp2 : parseUrlE ⟨p ++ rest⟩ = .ok (⟨p⟩, q) := by
        simp [parseUrlE, hs2, hqq]
      obtain ⟨h1, h2⟩ := handler_same routes orc method headers body query
        _ _ _ _ q hp1 hp2 hstrip horc1 horc2
      exact ⟨h1, h2, hone, stripTrailingSlash_root⟩

/-- Witness for C8: `/users/` and `/users` give the same response on a
table holding `GET /users`, with the trivial oracle set. -/
theorem trailing_slash_tolerance_witness :
    ("/users".data ≠ [] ∧ "/users".data.getLast? ≠ some '/' ∧ '?' ∉ "/users".data)
    ∧ handlerCore [exRouteUsers] exOrcUnit { method := "GET", url := "/users/" } =
      handlerCore [exRouteUsers] exOrcUnit { method := "GET", url := "/users" } := by
  refine ⟨⟨by decide, by decide, by decide⟩, ?_⟩
  have h := (trailing_slash_tolerance [exRouteUsers] exOrcUnit "GET" [] Js.undef none
    "/users".data [] (by decide) (by decide) (by decide) (Or.inl rfl)
    (fun i => rfl) (fun f hf => absurd hf (by simp [exOrcUnit]))).2.1
  exact h
